import Mathlib

/-!
Verification of the GitCards rules engine.

The repository ships three variants of the engine, embedded here in three
namespaces:
* `Engine`   — `Python Cards/CardsGameEngine1.py`
* `BaseGame` — `Python Cards/CardBaseGame.py`
* `FullV2`   — `game_full_v_2.py`

Ranks, suits and the effective-rank map are textually identical across the
three files, so they are defined once at top level.  Python's interactive
`input()` calls are modelled by explicit decision parameters; message strings
returned for display are I/O glue and are elided from the embeddings (a
boolean `legal` flag records the early "illegal play" returns of
`CardBaseGame.GameState.play`).  Python object identity (`id(card)`), used as
the key of the per-burn emergency-action ledger, is modelled by an explicit
`iid : Nat` field, as the spec's design notes themselves suggest.
-/

/-- `Rank` enumeration from the source (`class Rank(Enum)`), TWO..A. -/
inductive Rank where
  | TWO | THREE | FOUR | FIVE | SIX | SEVEN
  | EIGHT | NINE | TEN | J | Q | K | A
deriving DecidableEq, Repr

/-- Numeric value of a rank (`Rank.<r>.value` in the source). -/
def Rank.value : Rank → Nat
  | .TWO => 2 | .THREE => 3 | .FOUR => 4 | .FIVE => 5 | .SIX => 6 | .SEVEN => 7
  | .EIGHT => 8 | .NINE => 9 | .TEN => 10 | .J => 11 | .Q => 12 | .K => 13 | .A => 14

/-- `Suit` enumeration from the source. -/
inductive Suit where
  | SPADES | HEARTS | DIAMONDS | CLUBS
deriving DecidableEq, Repr

/-- `effective_rank`: 8 and 9 collapse to 8, all other ranks pass through.
Identical in all three source files. -/
def effective_rank (r : Rank) : Rank :=
  if r = Rank.EIGHT ∨ r = Rank.NINE then Rank.EIGHT else r

/-- A `collections.Counter` increment, keeping first-insertion order (Python
dicts preserve insertion order). -/
def ctrAdd : List (Rank × Nat) → Rank → List (Rank × Nat)
  | [], r => [(r, 1)]
  | (a, n) :: t, r => if a = r then (a, n + 1) :: t else (a, n) :: ctrAdd t r

/-- The per-burn allowance entry `{'peek': .., 'swap': ..}` of the emergency
action ledgers. -/
structure Actions where
  peek : Bool
  swap : Bool
deriving DecidableEq, Repr

/-- Python dict assignment `ledger[id(card)] = v`: replace the entry of an
existing key in place, otherwise append a fresh entry (dicts preserve
insertion order and never hold duplicate keys). -/
def actionsInsert : List (Nat × Actions) → Nat → Actions → List (Nat × Actions)
  | [], k, v => [(k, v)]
  | e :: t, k, v => if e.1 = k then (k, v) :: t else e :: actionsInsert t k v

/-- Apply `f` to the element at index `i` (mutation of an aliased list
element in the Python). -/
def modifyIdx {α : Type} : List α → Nat → (α → α) → List α
  | [], _, _ => []
  | x :: t, 0, f => f x :: t
  | x :: t, n + 1, f => x :: modifyIdx t n f

/-- Dict lookup `burns.get(rank)` over the association-list model of the
burns dict. -/
def lookupRank (r : Rank) : List (Rank × Nat) → Option Nat
  | [] => none
  | e :: t => if e.1 = r then some e.2 else lookupRank r t

/-- Dict lookup `ledger.get(id(card))` over the association-list model of
the emergency-action ledger. -/
def lookupLedger (k : Nat) : List (Nat × Actions) → Option Actions
  | [] => none
  | e :: t => if e.1 = k then some e.2 else lookupLedger k t

namespace Engine

/-- `CardType` of `CardsGameEngine1.py` (six members). -/
inductive CardType where
  | NORMAL | JOKER | PFJ | FRE | EMERGENCY_RED | EMERGENCY_BLUE
deriving DecidableEq, Repr

/-- `Card` of `CardsGameEngine1.py`.  `iid` models Python object identity
(`id(card)`), used as the ledger key of `Player.emergency_actions`. -/
structure Card where
  iid : Nat
  rank : Option Rank
  suit : Option Suit
  type : CardType
  just_acquired : Bool
deriving DecidableEq, Repr

/-- `Card.is_normal`. -/
def Card.is_normal (c : Card) : Bool := c.type = CardType.NORMAL

/-- `Card.is_ranked`: has a rank and is not a rankless token (JK/PFJ/FRE). -/
def Card.is_ranked (c : Card) : Bool :=
  c.rank.isSome &&
    !(c.type = CardType.JOKER ∨ c.type = CardType.PFJ ∨ c.type = CardType.FRE)

/-- `CommonPile.add`: `self.cards[:0] = reversed(cards)` — the played cards
are inserted at the left, reversed, so the last card of the play is the new
top (index 0). -/
def add (pile : List Card) (cards : List Card) : List Card :=
  cards.reverse ++ pile

/-- `CommonPile.top`: `self.cards[0] if self.cards else None`. -/
def top (pile : List Card) : Option Card :=
  pile.head?

/-- `CommonPile.clear` returns the removed cards (the pile becomes `[]`). -/
def clear (pile : List Card) : List Card := pile

/-- The scanning loop of `CommonPile.detect_burns`: walks top → down keeping
counters `same / twos / threes` and the optional `anchor` effective rank;
stops at the first ranked card of a different effective rank. -/
def burn_scan : List Card → Nat → Nat → Nat → Option Rank →
    Nat × Nat × Nat × Option Rank
  | [], same, twos, threes, anchor => (same, twos, threes, anchor)
  | c :: rest, same, twos, threes, anchor =>
    if ¬ c.is_ranked then burn_scan rest same twos threes anchor
    else
      match c.rank with
      | none => burn_scan rest same twos threes anchor
      | some r =>
        if r = Rank.TWO then burn_scan rest same (twos + 1) threes anchor
        else if r = Rank.THREE then burn_scan rest same twos (threes + 1) anchor
        else
          match anchor with
          | none => burn_scan rest (same + 1) twos threes (some (effective_rank r))
          | some a =>
            if effective_rank r = a then burn_scan rest (same + 1) twos threes anchor
            else (same, twos, threes, anchor)

/-- Assembly of the `burns` dict of `CommonPile.detect_burns` from the final
scan counters: entries for the anchor, the 2s and the 3s, each `count // 4`
when the count reaches 4, in Python dict insertion order. -/
def burns_of (same twos threes : Nat) (anchor : Option Rank) : List (Rank × Nat) :=
  (match anchor with
   | some a => if 4 ≤ same then [(a, same / 4)] else []
   | none => []) ++
  (if 4 ≤ twos then [(Rank.TWO, twos / 4)] else []) ++
  (if 4 ≤ threes then [(Rank.THREE, threes / 4)] else [])

/-- `CommonPile.detect_burns` of `CardsGameEngine1.py`: top-segment scan;
burn entries for the anchor, the 2s and the 3s, each `count // 4` when the
count reaches 4.  The list order matches the Python dict insertion order. -/
def detect_burns (pile : List Card) : List (Rank × Nat) :=
  let s := burn_scan pile 0 0 0 none
  burns_of s.1 s.2.1 s.2.2.1 s.2.2.2

/-- A card the burn scan passes over without anchoring or breaking:
a rankless token, a Two, or a Three. -/
def transparent (c : Card) : Bool :=
  !c.is_ranked || c.rank = some Rank.TWO || c.rank = some Rank.THREE

/-- Provenance colour of an emergency slot (`"RED"` / `"BLUE"` strings in the
Python). -/
inductive Color where
  | RED | BLUE
deriving DecidableEq, Repr

/-- `EmergencySlot` of `CardsGameEngine1.py`. -/
structure EmergencySlot where
  index : Nat
  locked : Bool
  card : Option Card
  known_to_owner : Bool
  source_color : Option Color
deriving DecidableEq, Repr

/-- `EmergencySlot.set_card`. -/
def EmergencySlot.set_card (s : EmergencySlot) (c : Card) (known : Bool) :
    EmergencySlot :=
  { s with card := some c, known_to_owner := known }

/-- `Player` of `CardsGameEngine1.py` (the display-only `name` string and the
constant `max_emergency_slots` are elided; `emergency_actions` is the
per-burn ledger keyed by card identity). -/
structure Player where
  hand : List Card
  face_up : List Card
  face_down : List Card
  personal_pile : List Card
  status_token : Option Rank
  has_status_ability : Bool
  can_replenish_full : Bool
  emergency_slots : List EmergencySlot
  emergency_actions : List (Nat × Actions)
deriving DecidableEq, Repr

/-- The slot mutation performed by `Player.fill_slot`: write the card (with
its `just_acquired` flag set) and visibility, then record provenance colour
(explicit override first, else inferred from the card's EMERGENCY_* tag). -/
def fill_slot_update (card : Card) (known_to_owner just_acquired : Bool)
    (source_color : Option Color) (s : EmergencySlot) : EmergencySlot :=
  match source_color with
  | some col =>
    { s.set_card { card with just_acquired := just_acquired } known_to_owner with
      source_color := some col }
  | none =>
    if card.type = CardType.EMERGENCY_RED then
      { s.set_card { card with just_acquired := just_acquired } known_to_owner with
        source_color := some Color.RED }
    else if card.type = CardType.EMERGENCY_BLUE then
      { s.set_card { card with just_acquired := just_acquired } known_to_owner with
        source_color := some Color.BLUE }
    else s.set_card { card with just_acquired := just_acquired } known_to_owner

/-- `Player.fill_slot`: install a card into the slot at index `i` and write
the gating ledger entry `{'peek': not just_acquired, 'swap': not
just_acquired}` for the card's identity. -/
def fill_slot (p : Player) (i : Nat) (card : Card) (known_to_owner : Bool)
    (just_acquired : Bool) (source_color : Option Color) : Player :=
  { p with
    emergency_slots := modifyIdx p.emergency_slots i
      (fill_slot_update card known_to_owner just_acquired source_color),
    emergency_actions :=
      actionsInsert p.emergency_actions card.iid ⟨!just_acquired, !just_acquired⟩ }

/-- One step of the ledger rebuild: a slotted card gets one action
(`not just_acquired`) for both peek and swap. -/
def reset_entry (m : List (Nat × Actions)) (s : EmergencySlot) :
    List (Nat × Actions) :=
  match s.card with
  | some c => actionsInsert m c.iid ⟨!c.just_acquired, !c.just_acquired⟩
  | none => m

/-- `Player.reset_emergency_actions`: clear the ledger and rebuild it from
the slots, allowing one action per card unless it is `just_acquired`. -/
def reset_emergency_actions (p : Player) : Player :=
  { p with emergency_actions := p.emergency_slots.foldl reset_entry [] }

/-- The per-slot flag clearing of `start_new_burn_cycle`. -/
def clear_acquired (s : EmergencySlot) : EmergencySlot :=
  match s.card with
  | some c => { s with card := some { c with just_acquired := false } }
  | none => s

/-- `Player.start_new_burn_cycle`: clear every slotted card's `just_acquired`
flag, then rebuild the ledger. -/
def start_new_burn_cycle (p : Player) : Player :=
  reset_emergency_actions
    { p with emergency_slots := p.emergency_slots.map clear_acquired }

/-- `Player.consume_emergency_action`: if the requested action is available
for that card identity, disable both peek and swap for it. -/
def consume_emergency_action (p : Player) (cid : Nat) (whichPeek : Bool) : Player :=
  match lookupLedger cid p.emergency_actions with
  | some av =>
    if (if whichPeek then av.peek else av.swap) then
      { p with emergency_actions := actionsInsert p.emergency_actions cid ⟨false, false⟩ }
    else p
  | none => p

end Engine

namespace BaseGame

/-- `CardType` of `CardBaseGame.py` (only NORMAL and JOKER). -/
inductive CardType where
  | NORMAL | JOKER
deriving DecidableEq, Repr

/-- `Card` of `CardBaseGame.py`.  This class defines a structural `__eq__`
(kind + rank + suit), so no identity field is needed. -/
structure Card where
  rank : Option Rank
  suit : Option Suit
  type : CardType
deriving DecidableEq, Repr

/-- `Card.is_normal`. -/
def Card.is_normal (c : Card) : Bool := c.type = CardType.NORMAL

/-- `Card.is_joker`. -/
def Card.is_joker (c : Card) : Bool := c.type = CardType.JOKER

/-- `CommonPile.top`: `self.cards[-1] if self.cards else None`. -/
def top (pile : List Card) : Option Card :=
  pile.getLast?

/-- `CommonPile.add`: `self.cards.extend(cards)` — append, last card of the
play is the new top (end of the list). -/
def add (pile : List Card) (cards : List Card) : List Card :=
  pile ++ cards

/-- Counts of effective ranks of the normal, non-2/3 cards of the whole pile,
in first-occurrence order. -/
def countRanks (pile : List Card) : List (Rank × Nat) :=
  pile.foldl
    (fun ctr c =>
      if c.is_normal then
        match c.rank with
        | some r => if r = Rank.TWO ∨ r = Rank.THREE then ctr else ctrAdd ctr (effective_rank r)
        | none => ctr
      else ctr) []

/-- `CommonPile.detect_burns` of `CardBaseGame.py`: counts four-of-a-kind by
effective rank across the WHOLE pile; 2s and 3s never contribute at all. -/
def detect_burns (pile : List Card) : List (Rank × Nat) :=
  (countRanks pile).filterMap (fun e => if 4 ≤ e.2 then some (e.1, e.2 / 4) else none)

/-- `Player` of `CardBaseGame.py` (display-only `name` elided; the personal
pile deque is a list drawn from the front). -/
structure Player where
  hand : List Card
  face_up : List Card
  face_down : List Card
  known_middle_fd : Option Card
  personal_pile : List Card
  has_status : Bool
deriving DecidableEq, Repr

/-- `Player.max_hand`. -/
def Player.max_hand (p : Player) : Nat := if p.has_status then 5 else 4

/-- `Player.all_cards_empty`. -/
def Player.all_cards_empty (p : Player) : Bool :=
  p.personal_pile.isEmpty && p.hand.isEmpty && p.face_up.isEmpty && p.face_down.isEmpty

/-- The matching test of `Player.remove_from_zones`: a joker matches a joker,
a normal card matches by rank and suit. -/
def matchesCard (c card : Card) : Bool :=
  (c.is_joker && card.is_joker) ||
  (c.is_normal && card.is_normal && c.rank == card.rank && c.suit == card.suit)

/-- Remove the first card of the zone matching `card` (`zone.pop(i)`). -/
def removeFirst : List Card → Card → Option (List Card)
  | [], _ => none
  | c :: t, card =>
    if matchesCard c card then some t
    else
      match removeFirst t card with
      | some t2 => some (c :: t2)
      | none => none

/-- `Player.remove_from_zones`: remove exactly one matching card, hand first,
then face-up; `none` models the `return False` path. -/
def Player.remove_from_zones (p : Player) (card : Card) : Option Player :=
  match removeFirst p.hand card with
  | some h => some { p with hand := h }
  | none =>
    match removeFirst p.face_up card with
    | some f => some { p with face_up := f }
    | none => none

/-- `Player.has_block_piece`. -/
def Player.has_block_piece (p : Player) : Bool :=
  p.hand.any (fun c => c.is_joker || (c.is_normal && c.rank == some Rank.FOUR))

/-- `Player.take_pile_into_hand`. -/
def Player.take_pile_into_hand (p : Player) (cards : List Card) : Player :=
  { p with hand := p.hand ++ cards }

/-- `GameState` of `CardBaseGame.py`; the two players of the `players` list
are indexed by a `Bool` (`false` = `players[0]`, and `1 - current_idx` is
`!current_idx`). -/
structure GameState where
  p0 : Player
  p1 : Player
  current_idx : Bool
  common_pile : List Card
  means_active : Bool
  means_limit : Option Rank
  first_burn : Bool
  status_rank : Option Rank
deriving DecidableEq, Repr

/-- `self.players[i]`. -/
def getPlayer (st : GameState) (i : Bool) : Player := if i then st.p1 else st.p0

/-- Write back player `i` (Python mutates the aliased object in place). -/
def setPlayer (st : GameState) (i : Bool) (p : Player) : GameState :=
  if i then { st with p1 := p } else { st with p0 := p }

/-- `GameState.set_status_on_first_burn`. -/
def set_status_on_first_burn (st : GameState) (i : Bool) (burn_rank : Rank) :
    GameState :=
  if st.first_burn then st
  else
    let st := { st with first_burn := true, status_rank := some burn_rank }
    setPlayer st i { getPlayer st i with has_status := true }

/-- `GameState.transfer_status_due_to_means` (attacker `att`, defender `dfd`). -/
def transfer_status_due_to_means (st : GameState) (att dfd : Bool) : GameState :=
  if (getPlayer st dfd).has_status then
    let st := setPlayer st dfd { getPlayer st dfd with has_status := false }
    setPlayer st att { getPlayer st att with has_status := true }
  else st

/-- `GameState.legal_under_means`.  (For a normal card with no rank — a
constructor-contract violation that the Python would crash on — the card is
skipped.) -/
def legal_under_means (st : GameState) (cards : List Card) (via_pair : Bool) :
    Bool :=
  if via_pair then true
  else if ¬ st.means_active then true
  else cards.all (fun c =>
    if c.is_normal then
      match c.rank with
      | some rr =>
        let r := effective_rank rr
        if r = Rank.THREE then true
        else
          match st.means_limit with
          | some l => decide (r.value < (effective_rank l).value)
          | none => true
      | none => true
    else true)

/-- One iteration of the burn loop of `resolve_burns_if_any`: status on the
first burn, clear the pile, reset the means state. -/
def applyBurn (st : GameState) (i : Bool) (r : Rank) : GameState :=
  let st := set_status_on_first_burn st i r
  { st with common_pile := [], means_active := false, means_limit := none }

/-- `for i in range(count)` around `applyBurn`. -/
def applyBurnN : GameState → Bool → Rank → Nat → GameState
  | st, _, _, 0 => st
  | st, i, r, n + 1 => applyBurnN (applyBurn st i r) i r n

/-- `for r, count in burns.items()` around the burn loop. -/
def burnsFold : GameState → Bool → List (Rank × Nat) → GameState
  | st, _, [] => st
  | st, i, (r, n) :: rest => burnsFold (applyBurnN st i r n) i rest

/-- `GameState.resolve_burns_if_any` (messages elided). -/
def resolve_burns_if_any (st : GameState) (i : Bool) : GameState :=
  if detect_burns st.common_pile = [] then st
  else burnsFold st i (detect_burns st.common_pile)

/-- `GameState._force_pickup` (messages elided; the means reset is
unconditional). -/
def force_pickup (st : GameState) (dfd : Bool) : GameState :=
  if st.common_pile.isEmpty then
    { st with means_active := false, means_limit := none }
  else
    { setPlayer st dfd ((getPlayer st dfd).take_pile_into_hand st.common_pile) with
      common_pile := [], means_active := false, means_limit := none }

/-- The removal loop of `play`: each raw card that `remove_from_zones`
accepts is removed and collected into `played`. -/
def remove_played (p : Player) : List Card → Player × List Card
  | [] => (p, [])
  | rc :: rest =>
    match p.remove_from_zones rc with
    | some p2 =>
      let r := remove_played p2 rest
      (r.1, rc :: r.2)
    | none => remove_played p rest

/-- `via_pair_with_means`: the pair contains a 2 and a 5/7 and all normal
cards share one suit. -/
def pair_with_means (played : List Card) : Bool :=
  let normals := played.filter Card.is_normal
  let ranks := normals.map Card.rank
  let suits := normals.map Card.suit
  decide ((some Rank.TWO) ∈ ranks ∧
    ((some Rank.FIVE) ∈ ranks ∨ (some Rank.SEVEN) ∈ ranks) ∧
    suits.dedup.length = 1)

/-- A normal Five or Seven (`has_means_card` test). -/
def is_means_card (c : Card) : Bool :=
  c.is_normal && decide (c.rank = some Rank.FIVE ∨ c.rank = some Rank.SEVEN)

/-- The `anchor` computation of the means-activation step: the last 5/7 of
the play (`for c in reversed(played)`), with the pair-only fallback. -/
def means_anchor (played : List Card) (vpwm : Bool) : Option Rank :=
  match played.reverse.find? is_means_card with
  | some c => c.rank
  | none =>
    if vpwm then
      some (if played.any (fun c => c.is_normal && decide (c.rank = some Rank.FIVE))
            then Rank.FIVE else Rank.SEVEN)
    else none

/-- The means-activation step of `play` (`player` is the attacker, the
defender is `self.opponent()`; `current_idx` is never written during a
play). -/
def means_step (st : GameState) (att : Bool) (played : List Card)
    (via_pair : Bool) : GameState :=
  if played.any is_means_card || (via_pair && pair_with_means played) then
    let st := transfer_status_due_to_means st att (!st.current_idx)
    let anchor := means_anchor played (via_pair && pair_with_means played)
    { st with means_active := true, means_limit := anchor }
  else { st with means_active := false, means_limit := none }

/-- The defender's reply to the Joker-block prompt (`input()` in the source,
parsed: the literal `JK`, a `4`+suit token, anything else declines). -/
inductive BlockChoice where
  | jk
  | four (s : Suit)
  | no
deriving DecidableEq, Repr

/-- The defender's `for i, c in enumerate(opp.hand)` joker-consuming loop:
remove the first joker, and silently do nothing if there is none. -/
def remove_first_joker : List Card → List Card
  | [] => []
  | c :: t => if c.is_joker then t else c :: remove_first_joker t

/-- `list.remove(target)`: drop the first structurally equal element. -/
def remove_first_eq : List Card → Card → List Card
  | [], _ => []
  | c :: t, x => if c = x then t else c :: remove_first_eq t x

/-- The Joker-offense step at the end of `play` (fires when the terminal
played card is a joker). -/
def jk_step (st : GameState) (played : List Card) (choice : BlockChoice) :
    GameState :=
  match played.getLast? with
  | some c =>
    if c.is_joker then
      if (getPlayer st (!st.current_idx)).has_block_piece then
        match choice with
        | .jk =>
          setPlayer st (!st.current_idx)
            { getPlayer st (!st.current_idx) with
              hand := remove_first_joker (getPlayer st (!st.current_idx)).hand }
        | .four s =>
          if (⟨some Rank.FOUR, some s, CardType.NORMAL⟩ : Card) ∈
              (getPlayer st (!st.current_idx)).hand then
            setPlayer st (!st.current_idx)
              { getPlayer st (!st.current_idx) with
                hand := remove_first_eq (getPlayer st (!st.current_idx)).hand
                  ⟨some Rank.FOUR, some s, CardType.NORMAL⟩ }
          else force_pickup st (!st.current_idx)
        | .no => force_pickup st (!st.current_idx)
      else force_pickup st (!st.current_idx)
    else st
  | none => st

/-- Result of `GameState.play`: the post-state, a `legal` flag recording
whether one of the three validation checks returned early (messages elided),
and the win flag. -/
structure PlayResult where
  st : GameState
  legal : Bool
  win : Bool
deriving DecidableEq, Repr

/-- The pile-append step of `play`: `self.common_pile.add(played)`. -/
def add_step (st : GameState) (played : List Card) : GameState :=
  { st with common_pile := st.common_pile ++ played }

/-- The post-validation state transformation of `GameState.play`: removal,
pile append, means activation, burn resolution, joker offense. -/
def play_state (st : GameState) (i : Bool) (raw_cards : List Card)
    (via_pair : Bool) (choice : BlockChoice) : GameState :=
  jk_step
    (resolve_burns_if_any
      (means_step
        (add_step (setPlayer st i (remove_played (getPlayer st i) raw_cards).1)
          (remove_played (getPlayer st i) raw_cards).2)
        i (remove_played (getPlayer st i) raw_cards).2 via_pair)
      i)
    (remove_played (getPlayer st i) raw_cards).2 choice

/-- The mutating tail of `GameState.play`, entered once all three validation
checks have passed: the state transformation plus the win check. -/
def playBody (st : GameState) (i : Bool) (raw_cards : List Card)
    (via_pair : Bool) (choice : BlockChoice) : PlayResult :=
  ⟨play_state st i raw_cards via_pair choice, true,
    (getPlayer (play_state st i raw_cards via_pair choice) i).all_cards_empty⟩

/-- `GameState.play` of `CardBaseGame.py`: possession, joker-alone and means
validation (each returning early with no mutation), then the mutating body. -/
def play (st : GameState) (i : Bool) (raw_cards : List Card) (via_pair : Bool)
    (choice : BlockChoice) : PlayResult :=
  if ¬ ∀ rc ∈ raw_cards, rc ∈ (getPlayer st i).hand ∨ rc ∈ (getPlayer st i).face_up then
    ⟨st, false, false⟩
  else if (raw_cards.any Card.is_joker) ∧ raw_cards.length ≠ 1 then
    ⟨st, false, false⟩
  else if ¬ legal_under_means st raw_cards via_pair then
    ⟨st, false, false⟩
  else playBody st i raw_cards via_pair choice

end BaseGame

namespace FullV2

/-- `CardType` of `game_full_v_2.py` (six members). -/
inductive CardType where
  | NORMAL | JOKER | PFJ | FRE | EMERGENCY_RED | EMERGENCY_BLUE
deriving DecidableEq, Repr

/-- `Card` of `game_full_v_2.py`.  This class defines no `__eq__`, so `in` /
`list.remove` compare by object identity; `iid` models `id(card)`. -/
structure Card where
  iid : Nat
  rank : Option Rank
  suit : Option Suit
  type : CardType
  just_acquired : Bool
deriving DecidableEq, Repr

/-- `Card.is_normal`. -/
def Card.is_normal (c : Card) : Bool := c.type = CardType.NORMAL

/-- `CommonPile.add` of `game_full_v_2.py`: `extend` (append). -/
def add (pile : List Card) (cs : List Card) : List Card := pile ++ cs

/-- `CommonPile.top` of `game_full_v_2.py`. -/
def top (pile : List Card) : Option Card := pile.getLast?

/-- The `Counter` accumulation of `CommonPile.detect_burns`. -/
def countRanks (pile : List Card) : List (Rank × Nat) :=
  pile.foldl
    (fun ctr c =>
      if c.is_normal then
        match c.rank with
        | some r =>
          if r = Rank.TWO ∨ r = Rank.THREE then ctr else ctrAdd ctr (effective_rank r)
        | none => ctr
      else ctr) []

/-- `CommonPile.detect_burns` of `game_full_v_2.py`: four-of-a-kind by
effective rank counted across the WHOLE pile; 2s and 3s never contribute. -/
def detect_burns (pile : List Card) : List (Rank × Nat) :=
  (countRanks pile).filterMap (fun e => if 4 ≤ e.2 then some (e.1, e.2 / 4) else none)

/-- `Player` of `game_full_v_2.py` (display-only `name` elided). -/
structure Player where
  hand : List Card
  face_up : List Card
  face_down : List Card
  emergency_red : List Card
  emergency_blue : List Card
  personal_pile : List Card
  status_token : Option Rank
  has_status_ability : Bool
  can_replenish_full : Bool
  emergency_actions : List (Nat × Actions)
deriving DecidableEq, Repr

/-- `Player.hand_limit`. -/
def Player.hand_limit (p : Player) : Nat := if p.has_status_ability then 5 else 4

/-- `Player.pickup_common`: extend the hand with the picked-up cards AND
reset the personal pile to empty. -/
def pickup_common (p : Player) (cs : List Card) : Player :=
  { p with hand := p.hand ++ cs, personal_pile := [] }

/-- `Player.reset_emergency_actions` of `game_full_v_2.py`: every emergency
card becomes fully actionable. -/
def reset_emergency_actions (p : Player) : Player :=
  { p with
    emergency_actions :=
      (p.emergency_red ++ p.emergency_blue).foldl
        (fun m c => actionsInsert m c.iid ⟨true, true⟩) [] }

/-- A pending joker offense (`{'att': pl, 'str': n, 'res': False}`); the
attacker reference is modelled by a player index. -/
structure Offense where
  att : Bool
  str : Nat
  res : Bool
deriving DecidableEq, Repr

/-- `GameState` of `game_full_v_2.py`.  `next_iid` supplies fresh object
identities for cards created during resolution. -/
structure GameState where
  common_pile : List Card
  p0 : Player
  p1 : Player
  current_idx : Bool
  first_burn : Bool
  status_rank : Option Rank
  offenses : List Offense
  interactive : Bool
  next_iid : Nat
deriving DecidableEq, Repr

/-- `self.players[i]`. -/
def getPlayer (st : GameState) (i : Bool) : Player := if i then st.p1 else st.p0

/-- Write back player `i`. -/
def setPlayer (st : GameState) (i : Bool) (p : Player) : GameState :=
  if i then { st with p1 := p } else { st with p0 := p }

/-- `GameState.set_status`. -/
def set_status (st : GameState) (i : Bool) (r : Rank) : GameState :=
  if st.first_burn then st
  else
    let st := { st with first_burn := true, status_rank := some r }
    setPlayer st i
      { getPlayer st i with status_token := some r, has_status_ability := true }

/-- `GameState.transfer_status`. -/
def transfer_status (st : GameState) (src tgt : Bool) : GameState :=
  if (getPlayer st tgt).has_status_ability then
    let st := setPlayer st tgt
      { getPlayer st tgt with has_status_ability := false, status_token := none }
    setPlayer st src
      { getPlayer st src with has_status_ability := true, status_token := st.status_rank }
  else st

/-- Pre-supplied answers for the interactive prompts inside burn resolution
(`input()` in the source): the ranks named at the burn-order prompt and the
per-card peek/swap replies. -/
structure Decisions where
  burn_sel : List Rank
  peek : Nat → Bool
  swap : Nat → Bool

/-- Replace the first card of identity `cid` (the `list[idx] = new` swap). -/
def replaceCard : List Card → Nat → Card → List Card
  | [], _, _ => []
  | c :: t, cid, new =>
    if c.iid == cid then new :: t else c :: replaceCard t cid new

/-- One iteration of `GameState.emergency_prompt` over a snapshot card:
offer peek, then swap, each only when available, interactive and accepted. -/
def prompt_step (st : GameState) (i : Bool) (dec : Decisions) (c : Card) :
    GameState :=
  match lookupLedger c.iid (getPlayer st i).emergency_actions with
  | none => st
  | some av =>
    if c.just_acquired then st
    else
      let st1 :=
        if av.peek && st.interactive && dec.peek c.iid then
          let p := getPlayer st i
          setPlayer st i
            { p with emergency_actions := actionsInsert p.emergency_actions c.iid ⟨false, av.swap⟩ }
        else st
      if av.swap && st1.interactive && dec.swap c.iid then
        let p2 := getPlayer st1 i
        let newCard : Card := ⟨st1.next_iid, none, none, c.type, true⟩
        let st2 := { st1 with next_iid := st1.next_iid + 1 }
        let p3 :=
          if c.type = CardType.EMERGENCY_RED then
            { p2 with emergency_red := replaceCard p2.emergency_red c.iid newCard }
          else
            { p2 with emergency_blue := replaceCard p2.emergency_blue c.iid newCard }
        let curPeek :=
          match lookupLedger c.iid p3.emergency_actions with
          | some a => a.peek
          | none => false
        setPlayer st2 i
          { p3 with emergency_actions := actionsInsert p3.emergency_actions c.iid ⟨curPeek, false⟩ }
      else st1

/-- `GameState.emergency_prompt` (iterates a snapshot of red + blue). -/
def emergency_prompt (st : GameState) (i : Bool) (dec : Decisions) : GameState :=
  ((getPlayer st i).emergency_red ++ (getPlayer st i).emergency_blue).foldl
    (fun st c => prompt_step st i dec c) st

/-- One burn of `GameState.resolve_burns`: status, clear the pile, grant a
fresh blue emergency (gated this cycle), reset the ledger, prompt. -/
def applyBurnV2 (st : GameState) (i : Bool) (r : Rank) (dec : Decisions) :
    GameState :=
  let st := set_status st i r
  let st := { st with common_pile := [] }
  let nb : Card := ⟨st.next_iid, none, none, CardType.EMERGENCY_BLUE, true⟩
  let st := { st with next_iid := st.next_iid + 1 }
  let p := getPlayer st i
  let p := { p with emergency_blue := p.emergency_blue ++ [nb] }
  let p := reset_emergency_actions p
  let p := { p with emergency_actions := actionsInsert p.emergency_actions nb.iid ⟨false, false⟩ }
  emergency_prompt (setPlayer st i p) i dec

/-- `for i in range(b[r])` around one burn. -/
def applyBurnNV2 : GameState → Bool → Rank → Decisions → Nat → GameState
  | st, _, _, _, 0 => st
  | st, i, r, dec, n + 1 => applyBurnNV2 (applyBurnV2 st i r dec) i r dec n

/-- `GameState.resolve_burns` of `game_full_v_2.py`.  When interactive and
several ranks burn, the typed reply SELECTS (in detected order) the ranks to
resolve, falling back to all of them when nothing matches. -/
def resolve_burns (st : GameState) (i : Bool) (dec : Decisions) : GameState :=
  let b := detect_burns st.common_pile
  if b = [] then st
  else
    let rs := b.map Prod.fst
    let order :=
      if st.interactive ∧ 1 < rs.length then
        let f := rs.filter (fun r => r ∈ dec.burn_sel)
        if f = [] then rs else f
      else rs
    order.foldl
      (fun st r =>
        applyBurnNV2 st i r dec
          (match lookupRank r b with | some n => n | none => 0)) st

/-- Remove the first card of identity `cid` from a zone, if present
(identity-based `in` + `remove`). -/
def removeByIid : List Card → Nat → List Card
  | [], _ => []
  | c :: t, cid => if c.iid == cid then t else c :: removeByIid t cid

/-- Result of `GameState.play` of `game_full_v_2.py` (messages elided).
This variant's `play` has NO validation and no failure path. -/
structure PlayResult where
  st : GameState
  win : Bool
deriving DecidableEq, Repr

/-- The FRE handling loop inside `play`. -/
def fre_step (i : Bool) (st : GameState) (c : Card) : GameState :=
  if c.type = CardType.FRE then
    let nr : Card := ⟨st.next_iid, none, none, CardType.EMERGENCY_RED, true⟩
    let st := { st with next_iid := st.next_iid + 1 }
    let p := getPlayer st i
    let p := { p with emergency_red := p.emergency_red ++ [nr] }
    let p := reset_emergency_actions p
    let p := { p with emergency_actions := actionsInsert p.emergency_actions nr.iid ⟨false, false⟩ }
    setPlayer st i p
  else st

/-- The PFJ steal loop inside `play`. -/
def pfj_step (i opp : Bool) (st : GameState) (c : Card) : GameState :=
  if c.type = CardType.PFJ then
    if (getPlayer st opp).personal_pile ≠ [] then
      let st2 := setPlayer st i
        { getPlayer st i with
          personal_pile := (getPlayer st i).personal_pile ++ (getPlayer st opp).personal_pile }
      setPlayer st2 opp { getPlayer st2 opp with personal_pile := [] }
    else st
  else st

/-- `GameState.play` of `game_full_v_2.py`: removal from hand (identity
membership, silently skipping absent cards), FRE grants, means/status
transfer, pile append, TEN wipe, PFJ steal, joker offense enqueue, burn
resolution, win check.  There is no validation and no failure return. -/
def play (st0 : GameState) (i : Bool) (cs : List Card) (pair : Bool)
    (dec : Decisions) : PlayResult :=
  let st := setPlayer st0 i
    { getPlayer st0 i with
      hand := cs.foldl (fun h c => removeByIid h c.iid) (getPlayer st0 i).hand }
  let st := cs.foldl (fre_step i) st
  let opp := !st0.current_idx
  let m5 := cs.any (fun c =>
    c.is_normal && decide (c.rank = some Rank.FIVE ∨ c.rank = some Rank.SEVEN))
  let st := if m5 && (getPlayer st opp).has_status_ability then transfer_status st i opp else st
  let st :=
    if m5 then
      let st := setPlayer st i { getPlayer st i with can_replenish_full := true }
      setPlayer st opp { getPlayer st opp with can_replenish_full := true }
    else st
  let st := if pair then setPlayer st i { getPlayer st i with can_replenish_full := false } else st
  let st := { st with common_pile := st.common_pile ++ cs }
  let st :=
    match cs with
    | [c] =>
      if c.is_normal && decide (c.rank = some Rank.TEN) then { st with common_pile := [] } else st
    | _ => st
  let st := cs.foldl (pfj_step i opp) st
  let jks := cs.filter (fun c => c.type = CardType.JOKER)
  let st := if jks ≠ [] then { st with offenses := st.offenses ++ [⟨i, jks.length, false⟩] } else st
  let st := resolve_burns st i dec
  let p := getPlayer st i
  ⟨st, p.hand.isEmpty && p.face_up.isEmpty && p.face_down.isEmpty && p.personal_pile.isEmpty⟩

/-- A hand card qualifying as block material in `resolve_offenses`. -/
def isBlockPiece (c : Card) : Bool :=
  decide (c.type = CardType.JOKER) ||
  (c.is_normal && decide (c.rank = some Rank.FOUR)) ||
  decide (c.type = CardType.PFJ)

/-- The greedy block-collection loop of `resolve_offenses` (stops once the
required strength is provided). -/
def takeBlockGo : List Card → Nat → Nat → List Card → Nat × List Card
  | [], _, prov, used => (prov, used)
  | c :: t, req, prov, used =>
    if req ≤ prov then (prov, used)
    else if isBlockPiece c then takeBlockGo t req (prov + 1) (used ++ [c])
    else takeBlockGo t req prov used

/-- The consumption loop of a sufficient block (`to_cons` countdown). -/
def consumeUsed : List Card → Nat → List Card → List Card
  | hand, _, [] => hand
  | hand, need, c :: t =>
    if need = 0 then hand
    else if hand.any (fun h => h.iid == c.iid) then
      consumeUsed (removeByIid hand c.iid) (need - 1) t
    else consumeUsed hand need t

/-- One offense of `GameState.resolve_offenses`: the defender is
`self.opponent()`; a sufficient block consumes the cards, an insufficient
one forces `pickup_common(common_pile.clear())`. -/
def resolve_offense_step (st : GameState) (a : Offense) : GameState :=
  if a.res then st
  else
    let df := !st.current_idx
    let tb := takeBlockGo (getPlayer st df).hand a.str 0 []
    if a.str ≤ tb.1 then
      setPlayer st df
        { getPlayer st df with hand := consumeUsed (getPlayer st df).hand a.str tb.2 }
    else
      let cleared := st.common_pile
      let st := { st with common_pile := [] }
      setPlayer st df (pickup_common (getPlayer st df) cleared)

/-- `GameState.resolve_offenses`: process a snapshot of the queue; every
processed offense is marked resolved, so the queue ends empty. -/
def resolve_offenses (st : GameState) : GameState :=
  let st2 := st.offenses.foldl resolve_offense_step st
  { st2 with offenses := [] }

end FullV2

namespace Fixtures

/-! Concrete cards and states used by counterexamples and witnesses. -/

def e8H : Engine.Card := ⟨0, some Rank.EIGHT, some Suit.HEARTS, .NORMAL, false⟩
def e9S : Engine.Card := ⟨1, some Rank.NINE, some Suit.SPADES, .NORMAL, false⟩
def eKC : Engine.Card := ⟨2, some Rank.K, some Suit.CLUBS, .NORMAL, false⟩
def e7s : List Engine.Card :=
  [⟨3, some Rank.SEVEN, some Suit.SPADES, .NORMAL, false⟩,
   ⟨4, some Rank.SEVEN, some Suit.HEARTS, .NORMAL, false⟩,
   ⟨5, some Rank.SEVEN, some Suit.DIAMONDS, .NORMAL, false⟩,
   ⟨6, some Rank.SEVEN, some Suit.CLUBS, .NORMAL, false⟩]

def en (i : Nat) (r : Rank) (s : Suit) : Engine.Card := ⟨i, some r, some s, .NORMAL, false⟩

/-- Engine pile: a King anchor on top, then four Twos and four Threes. -/
def mixPile : List Engine.Card :=
  eKC :: [en 10 .TWO .SPADES, en 11 .TWO .HEARTS, en 12 .TWO .DIAMONDS, en 13 .TWO .CLUBS,
          en 14 .THREE .SPADES, en 15 .THREE .HEARTS, en 16 .THREE .DIAMONDS, en 17 .THREE .CLUBS]

def bn (r : Rank) (s : Suit) : BaseGame.Card := ⟨some r, some s, .NORMAL⟩
def bjk : BaseGame.Card := ⟨none, none, .JOKER⟩

/-- BaseGame pile whose top (list end) is a King, with four Sevens buried
below it. -/
def buriedPile : List BaseGame.Card :=
  [bn .SEVEN .SPADES, bn .SEVEN .HEARTS, bn .SEVEN .DIAMONDS, bn .SEVEN .CLUBS, bn .K .SPADES]

def twosPile : List BaseGame.Card :=
  [bn .TWO .SPADES, bn .TWO .HEARTS, bn .TWO .DIAMONDS, bn .TWO .CLUBS]

def fn (i : Nat) (r : Rank) (s : Suit) : FullV2.Card := ⟨i, some r, some s, .NORMAL, false⟩

def twosPileF : List FullV2.Card :=
  [fn 20 .TWO .SPADES, fn 21 .TWO .HEARTS, fn 22 .TWO .DIAMONDS, fn 23 .TWO .CLUBS]

def fjk1 : FullV2.Card := ⟨1, none, none, .JOKER, false⟩
def fjk2 : FullV2.Card := ⟨2, none, none, .JOKER, false⟩
def f4S : FullV2.Card := ⟨3, some Rank.FOUR, some Suit.SPADES, .NORMAL, false⟩
def fp0 : FullV2.Player := ⟨[fjk1, fjk2, f4S], [], [], [], [], [], none, false, false, []⟩
def fpEmpty : FullV2.Player := ⟨[], [], [], [], [], [], none, false, false, []⟩
def fullSt : FullV2.GameState := ⟨[], fp0, fpEmpty, false, false, none, [], false, 10⟩
def fullSt7 : FullV2.GameState := ⟨[], fp0, fpEmpty, false, true, some Rank.EIGHT, [], false, 10⟩
def dec0 : FullV2.Decisions := ⟨[], fun _ => false, fun _ => false⟩

def bp0 : BaseGame.Player := ⟨[bn .FIVE .HEARTS, bn .SEVEN .SPADES, bn .FOUR .CLUBS], [], [], none, [], false⟩
def bp1 : BaseGame.Player := ⟨[bn .SIX .HEARTS], [], [], none, [], false⟩
def baseSt : BaseGame.GameState := ⟨bp0, bp1, false, [], false, none, false, none⟩
/-- Base state with an active means constraint of limit Five. -/
def baseStMeans : BaseGame.GameState :=
  ⟨bp0, bp1, false, [bn .FIVE .DIAMONDS], true, some Rank.FIVE, false, none⟩
/-- Base state where playing the Four of Spades completes a burn of Fours. -/
def bp6 : BaseGame.Player := ⟨[bn .FOUR .SPADES], [], [], none, [bn .A .SPADES], false⟩
def baseStBurn : BaseGame.GameState :=
  ⟨bp6, bp1, false, [bn .FOUR .HEARTS, bn .FOUR .DIAMONDS, bn .FOUR .CLUBS], true, some Rank.FIVE, false, none⟩
/-- Base state after a first burn has fixed the status rank. -/
def baseSt7 : BaseGame.GameState := ⟨bp0, bp1, false, [], false, none, true, some Rank.EIGHT⟩
def bpj : BaseGame.Player := ⟨[bjk, bn .FOUR .CLUBS], [], [], none, [], false⟩
def baseStJ : BaseGame.GameState := ⟨bpj, bp1, false, [], false, none, false, none⟩

def eSlotCard : Engine.Card := ⟨7, some Rank.K, some Suit.SPADES, .EMERGENCY_RED, false⟩
def ePlayer : Engine.Player :=
  ⟨[], [], [], [], none, false, false, [⟨0, false, none, false, none⟩], []⟩

end Fixtures

/-- C9 helper: the head of a reversed list is its last element. -/
theorem head?_reverse_eq_getLast? {α : Type} (l : List α) :
    l.reverse.head? = l.getLast? := by
  induction l with
  | nil => rfl
  | cons a t ih =>
    cases t with
    | nil => rfl
    | cons b t2 =>
      rw [List.reverse_cons, List.head?_append_of_ne_nil]
      · rw [ih, List.getLast?_cons_cons]
      · simp

/-- C9: for every non-empty play appended by a single `add` call, `top()`
afterwards returns the last card of the play, in both insertion conventions
(`CardsGameEngine1` prepend-reversed; `CardBaseGame` append); `top()` on an
empty pile returns none in both. -/
theorem add_top_contract (pile cs : List Engine.Card)
    (pile2 cs2 : List BaseGame.Card) (h : cs ≠ []) (h2 : cs2 ≠ []) :
    Engine.top (Engine.add pile cs) = cs.getLast? ∧
    BaseGame.top (BaseGame.add pile2 cs2) = cs2.getLast? ∧
    Engine.top [] = none ∧ BaseGame.top ([] : List BaseGame.Card) = none := by
  refine ⟨?_, ?_, rfl, rfl⟩
  · unfold Engine.top Engine.add
    rw [List.head?_append_of_ne_nil _ (by simpa using h)]
    exact head?_reverse_eq_getLast? cs
  · unfold BaseGame.top BaseGame.add
    exact List.getLast?_append_of_ne_nil _ h2

/-- C9 witness: a concrete two-card play on a one-card pile in each variant. -/
theorem add_top_contract_witness :
    Engine.top (Engine.add [⟨0, some Rank.FOUR, some Suit.SPADES, .NORMAL, false⟩]
        [⟨1, some Rank.FIVE, some Suit.HEARTS, .NORMAL, false⟩,
         ⟨2, some Rank.SIX, some Suit.CLUBS, .NORMAL, false⟩]) =
      some ⟨2, some Rank.SIX, some Suit.CLUBS, .NORMAL, false⟩ ∧
    BaseGame.top (BaseGame.add [⟨some Rank.FOUR, some Suit.SPADES, .NORMAL⟩]
        [⟨some Rank.FIVE, some Suit.HEARTS, .NORMAL⟩,
         ⟨some Rank.SIX, some Suit.CLUBS, .NORMAL⟩]) =
      some ⟨some Rank.SIX, some Suit.CLUBS, .NORMAL⟩ := by
  have h := add_top_contract
    [⟨0, some Rank.FOUR, some Suit.SPADES, .NORMAL, false⟩]
    [⟨1, some Rank.FIVE, some Suit.HEARTS, .NORMAL, false⟩,
     ⟨2, some Rank.SIX, some Suit.CLUBS, .NORMAL, false⟩]
    [⟨some Rank.FOUR, some Suit.SPADES, .NORMAL⟩]
    [⟨some Rank.FIVE, some Suit.HEARTS, .NORMAL⟩,
     ⟨some Rank.SIX, some Suit.CLUBS, .NORMAL⟩]
    (by decide) (by decide)
  exact ⟨h.1, h.2.1⟩

/-- Two and Three are the only ranks whose effective rank is Two or Three. -/
theorem effective_rank_not_two_three (r : Rank) (h2 : r ≠ Rank.TWO)
    (h3 : r ≠ Rank.THREE) :
    effective_rank r ≠ Rank.TWO ∧ effective_rank r ≠ Rank.THREE := by
  cases r <;> simp_all [effective_rank]


/-- Scan step: a non-ranked token is skipped. -/
theorem burn_scan_cons_token (c : Engine.Card) (h : c.is_ranked = false)
    (rest : List Engine.Card) (s t th : Nat) (a : Option Rank) :
    Engine.burn_scan (c :: rest) s t th a = Engine.burn_scan rest s t th a := by
  simp [Engine.burn_scan, h]

/-- Scan step: a Two is transparent and counted. -/
theorem burn_scan_cons_two (c : Engine.Card) (h1 : c.is_ranked = true)
    (hr : c.rank = some Rank.TWO)
    (rest : List Engine.Card) (s t th : Nat) (a : Option Rank) :
    Engine.burn_scan (c :: rest) s t th a = Engine.burn_scan rest s (t + 1) th a := by
  simp [Engine.burn_scan, h1, hr]

/-- Scan step: a Three is transparent and counted. -/
theorem burn_scan_cons_three (c : Engine.Card) (h1 : c.is_ranked = true)
    (hr : c.rank = some Rank.THREE)
    (rest : List Engine.Card) (s t th : Nat) (a : Option Rank) :
    Engine.burn_scan (c :: rest) s t th a = Engine.burn_scan rest s t (th + 1) a := by
  simp [Engine.burn_scan, h1, hr]

/-- Scan step: the first ranked non-2/3 card anchors at its effective rank. -/
theorem burn_scan_cons_anchor (c : Engine.Card) (r : Rank)
    (h1 : c.is_ranked = true) (hr : c.rank = some r)
    (h2 : r ≠ Rank.TWO) (h3 : r ≠ Rank.THREE)
    (rest : List Engine.Card) (s t th : Nat) :
    Engine.burn_scan (c :: rest) s t th none =
      Engine.burn_scan rest (s + 1) t th (some (effective_rank r)) := by
  simp [Engine.burn_scan, h1, hr, h2, h3]

/-- Scan step: a ranked non-2/3 card matching the anchor is accumulated. -/
theorem burn_scan_cons_same (c : Engine.Card) (r ar : Rank)
    (h1 : c.is_ranked = true) (hr : c.rank = some r)
    (h2 : r ≠ Rank.TWO) (h3 : r ≠ Rank.THREE) (hEff : effective_rank r = ar)
    (rest : List Engine.Card) (s t th : Nat) :
    Engine.burn_scan (c :: rest) s t th (some ar) =
      Engine.burn_scan rest (s + 1) t th (some ar) := by
  simp [Engine.burn_scan, h1, hr, h2, h3, hEff]

/-- A breaking card (ranked, not 2/3, effective rank different from the
anchor) stops the scan immediately, whatever follows it. -/
theorem burn_scan_break_step (d : Engine.Card) (rd ar : Rank)
    (hd1 : d.is_ranked = true) (hd2 : d.rank = some rd)
    (hd3 : rd ≠ Rank.TWO) (hd4 : rd ≠ Rank.THREE)
    (hd5 : effective_rank rd ≠ ar) (rest : List Engine.Card) (s t th : Nat) :
    Engine.burn_scan (d :: rest) s t th (some ar) = (s, t, th, some ar) := by
  simp [Engine.burn_scan, hd1, hd2, hd3, hd4, hd5]

/-- The scan ignores everything below the first breaking card: scanning
`pre ++ d :: post` equals scanning `pre ++ [d]` whenever every
non-transparent card of `pre` has effective rank `ar`, the anchor is `ar`
(already set, or established by some non-transparent card of `pre`), and `d`
breaks with a different effective rank. -/
theorem burn_scan_ignores_below_break (d : Engine.Card) (rd ar : Rank)
    (hd1 : d.is_ranked = true) (hd2 : d.rank = some rd)
    (hd3 : rd ≠ Rank.TWO) (hd4 : rd ≠ Rank.THREE)
    (hd5 : effective_rank rd ≠ ar) :
    ∀ (pre post : List Engine.Card) (s t th : Nat) (a : Option Rank),
      (∀ c ∈ pre, Engine.transparent c = false → c.rank.map effective_rank = some ar) →
      (a = some ar ∨ (a = none ∧ ∃ c ∈ pre, Engine.transparent c = false)) →
      Engine.burn_scan (pre ++ d :: post) s t th a =
        Engine.burn_scan (pre ++ [d]) s t th a := by
  intro pre
  induction pre with
  | nil =>
    intro post s t th a hA ha
    have haA : a = some ar := by
      rcases ha with h | ⟨_, c, hc, _⟩
      · exact h
      · exact absurd hc (List.not_mem_nil c)
    subst haA
    simp only [List.nil_append]
    rw [burn_scan_break_step d rd ar hd1 hd2 hd3 hd4 hd5,
        burn_scan_break_step d rd ar hd1 hd2 hd3 hd4 hd5]
  | cons c pre ih =>
    intro post s t th a hA ha
    have hA2 : ∀ x ∈ pre, Engine.transparent x = false → x.rank.map effective_rank = some ar :=
      fun x hx => hA x (List.mem_cons_of_mem c hx)
    have haNext : ∀ (tr : Engine.transparent c = true),
        a = some ar ∨ (a = none ∧ ∃ x ∈ pre, Engine.transparent x = false) := by
      intro tr
      rcases ha with h | ⟨hn, x, hx, hxt⟩
      · exact Or.inl h
      · refine Or.inr ⟨hn, ?_⟩
        rcases List.mem_cons.mp hx with rfl | hx2
        · rw [tr] at hxt; exact absurd hxt (by simp)
        · exact ⟨x, hx2, hxt⟩
    by_cases h1 : c.is_ranked = true
    · rcases hr : c.rank with _ | r
      · exfalso
        simp [Engine.Card.is_ranked, hr] at h1
      · by_cases h2 : r = Rank.TWO
        · subst h2
          have htr : Engine.transparent c = true := by
            simp [Engine.transparent, hr]
          rw [List.cons_append, List.cons_append,
              burn_scan_cons_two c h1 hr, burn_scan_cons_two c h1 hr]
          exact ih post s (t + 1) th a hA2 (haNext htr)
        · by_cases h3 : r = Rank.THREE
          · subst h3
            have htr : Engine.transparent c = true := by
              simp [Engine.transparent, hr]
            rw [List.cons_append, List.cons_append,
                burn_scan_cons_three c h1 hr, burn_scan_cons_three c h1 hr]
            exact ih post s t (th + 1) a hA2 (haNext htr)
          · have htr : Engine.transparent c = false := by
              simp [Engine.transparent, h1, hr, h2, h3]
            have hEff : effective_rank r = ar := by
              have := hA c (List.mem_cons_self c pre) htr
              rw [hr] at this
              simpa using this
            rcases ha with haA | ⟨han, _⟩
            · subst haA
              rw [List.cons_append, List.cons_append,
                  burn_scan_cons_same c r ar h1 hr h2 h3 hEff,
                  burn_scan_cons_same c r ar h1 hr h2 h3 hEff]
              exact ih post (s + 1) t th (some ar) hA2 (Or.inl rfl)
            · subst han
              rw [List.cons_append, List.cons_append,
                  burn_scan_cons_anchor c r h1 hr h2 h3,
                  burn_scan_cons_anchor c r h1 hr h2 h3, hEff]
              exact ih post (s + 1) t th (some ar) hA2 (Or.inl rfl)
    · have h1f : c.is_ranked = false := by
        revert h1; cases c.is_ranked <;> simp
      have htr : Engine.transparent c = true := by
        simp [Engine.transparent, h1f]
      rw [List.cons_append, List.cons_append,
          burn_scan_cons_token c h1f, burn_scan_cons_token c h1f]
      exact ih post s t th a hA2 (haNext htr)

/-- C1 (amended to the `CardsGameEngine1` variant): `detect_burns` scans the
pile from the top downward, anchoring at effective rank `ar`; once a ranked
non-2/3 card `d` of a different effective rank is reached, the scan
terminates there, so the cards below `d` contribute nothing — the burn
result of `pre ++ d :: post` equals that of `pre ++ [d]`.  In particular
four same-effective-rank cards buried below `d` are never reported. -/
theorem detect_burns_top_segment (pre post : List Engine.Card)
    (d : Engine.Card) (rd ar : Rank)
    (hpre : ∀ c ∈ pre, Engine.transparent c = false →
      c.rank.map effective_rank = some ar)
    (hanchor : ∃ c ∈ pre, Engine.transparent c = false)
    (hd1 : d.is_ranked = true) (hd2 : d.rank = some rd)
    (hd3 : rd ≠ Rank.TWO) (hd4 : rd ≠ Rank.THREE)
    (hd5 : effective_rank rd ≠ ar) :
    Engine.detect_burns (pre ++ d :: post) = Engine.detect_burns (pre ++ [d]) := by
  unfold Engine.detect_burns
  rw [burn_scan_ignores_below_break d rd ar hd1 hd2 hd3 hd4 hd5 pre post 0 0 0 none
      hpre (Or.inr ⟨rfl, hanchor⟩)]

/-- C1 witness: an Eight and a Nine on top, a King below them, and four
Sevens buried below the King; the Sevens contribute nothing. -/
theorem detect_burns_top_segment_witness :
    Engine.detect_burns ([Fixtures.e8H, Fixtures.e9S] ++ Fixtures.eKC :: Fixtures.e7s) =
      Engine.detect_burns ([Fixtures.e8H, Fixtures.e9S] ++ [Fixtures.eKC]) :=
  detect_burns_top_segment [Fixtures.e8H, Fixtures.e9S] Fixtures.e7s
    Fixtures.eKC Rank.K Rank.EIGHT
    (by decide) (by decide) (by decide) (by decide) (by decide) (by decide) (by decide)

/-- C1 counterexample: the claim also cites `CardBaseGame.detect_burns`
(and `game_full_v_2`), which count four-of-a-kind across the WHOLE pile:
four Sevens buried below a King nearer the top (the top is the list end in
this variant) ARE reported as a burn, contradicting "never reported". -/
theorem detect_burns_whole_pile_counterexample :
    (Rank.SEVEN, 1) ∈ BaseGame.detect_burns Fixtures.buriedPile ∧
    BaseGame.detect_burns Fixtures.buriedPile = [(Rank.SEVEN, 1)] := by
  constructor <;> decide

/-- The anchor of the scan is never Two or Three: it is only ever set to the
effective rank of a ranked non-2/3 card. -/
theorem burn_scan_anchor_not_two_three :
    ∀ (l : List Engine.Card) (s t th : Nat) (a : Option Rank),
      (∀ x, a = some x → x ≠ Rank.TWO ∧ x ≠ Rank.THREE) →
      ∀ x, (Engine.burn_scan l s t th a).2.2.2 = some x →
        x ≠ Rank.TWO ∧ x ≠ Rank.THREE := by
  intro l
  induction l with
  | nil => intro s t th a ha x hx; exact ha x hx
  | cons c rest ih =>
    intro s t th a ha x hx
    by_cases h1 : c.is_ranked = true
    · rcases hr : c.rank with _ | r
      · exfalso; simp [Engine.Card.is_ranked, hr] at h1
      · by_cases h2 : r = Rank.TWO
        · subst h2
          rw [burn_scan_cons_two c h1 hr] at hx
          exact ih _ _ _ _ ha x hx
        · by_cases h3 : r = Rank.THREE
          · subst h3
            rw [burn_scan_cons_three c h1 hr] at hx
            exact ih _ _ _ _ ha x hx
          · rcases a with _ | ar
            · rw [burn_scan_cons_anchor c r h1 hr h2 h3] at hx
              refine ih _ _ _ _ ?_ x hx
              intro y hy
              have : y = effective_rank r := by
                simpa using hy.symm
              subst this
              exact effective_rank_not_two_three r h2 h3
            · by_cases hEff : effective_rank r = ar
              · rw [burn_scan_cons_same c r ar h1 hr h2 h3 hEff] at hx
                exact ih _ _ _ _ ha x hx
              · rw [show Engine.burn_scan (c :: rest) s t th (some ar) = (s, t, th, some ar) from
                    burn_scan_break_step c r ar h1 hr h2 h3 hEff rest s t th] at hx
                exact ha x hx
    · have h1f : c.is_ranked = false := by
        revert h1; cases c.is_ranked <;> simp
      rw [burn_scan_cons_token c h1f] at hx
      exact ih _ _ _ _ ha x hx

/-- Lookup of the Two entry in the assembled burns dict. -/
theorem lookupRank_burns_of_two (same twos threes : Nat) (anchor : Option Rank)
    (hanch : ∀ x, anchor = some x → x ≠ Rank.TWO) (h : 4 ≤ twos) :
    lookupRank Rank.TWO (Engine.burns_of same twos threes anchor) = some (twos / 4) := by
  rcases anchor with _ | ar
  · simp [Engine.burns_of, h, lookupRank]
  · have hA := hanch ar rfl
    by_cases hs : 4 ≤ same
    · simp [Engine.burns_of, hs, h, lookupRank, hA]
    · simp [Engine.burns_of, hs, h, lookupRank]

/-- Lookup of the Three entry in the assembled burns dict. -/
theorem lookupRank_burns_of_three (same twos threes : Nat) (anchor : Option Rank)
    (hanch : ∀ x, anchor = some x → x ≠ Rank.THREE) (h : 4 ≤ threes) :
    lookupRank Rank.THREE (Engine.burns_of same twos threes anchor) = some (threes / 4) := by
  rcases anchor with _ | ar
  · by_cases ht : 4 ≤ twos <;> simp [Engine.burns_of, h, ht, lookupRank]
  · have hA := hanch ar rfl
    by_cases hs : 4 ≤ same <;> by_cases ht : 4 ≤ twos <;>
      simp [Engine.burns_of, hs, ht, h, lookupRank, hA]

/-- C2 (amended to the `CardsGameEngine1` variant): Twos and Threes are
transparent and separately counted — whenever the transparent top scan
counts four or more Twos (resp. Threes), `detect_burns` holds an entry
`(TWO, twos / 4)` (resp. `(THREE, threes / 4)`), independently of whether
the anchor rank also burns; and a Two or Three never anchors a run. -/
theorem detect_burns_twos_threes (pile : List Engine.Card) :
    (4 ≤ (Engine.burn_scan pile 0 0 0 none).2.1 →
      lookupRank Rank.TWO (Engine.detect_burns pile) =
        some ((Engine.burn_scan pile 0 0 0 none).2.1 / 4)) ∧
    (4 ≤ (Engine.burn_scan pile 0 0 0 none).2.2.1 →
      lookupRank Rank.THREE (Engine.detect_burns pile) =
        some ((Engine.burn_scan pile 0 0 0 none).2.2.1 / 4)) ∧
    (∀ x, (Engine.burn_scan pile 0 0 0 none).2.2.2 = some x →
      x ≠ Rank.TWO ∧ x ≠ Rank.THREE) := by
  have hanch := burn_scan_anchor_not_two_three pile 0 0 0 none (by simp)
  refine ⟨?_, ?_, hanch⟩
  · intro h
    exact lookupRank_burns_of_two _ _ _ _ (fun x hx => (hanch x hx).1) h
  · intro h
    exact lookupRank_burns_of_three _ _ _ _ (fun x hx => (hanch x hx).2) h

/-- C2 witness: a King anchor on top with four Twos and four Threes in the
transparent scan below it — both token ranks burn independently. -/
theorem detect_burns_twos_threes_witness :
    lookupRank Rank.TWO (Engine.detect_burns Fixtures.mixPile) = some 1 ∧
    lookupRank Rank.THREE (Engine.detect_burns Fixtures.mixPile) = some 1 := by
  have h := detect_burns_twos_threes Fixtures.mixPile
  exact ⟨h.1 (by decide), h.2.1 (by decide)⟩

/-- C2 counterexample: the claim also cites the `CardBaseGame` and
`game_full_v_2` variants of `detect_burns`, which skip Twos and Threes
entirely: a pile of four Twos yields NO burn entry there, contradicting the
claimed `(TWO, twos // 4)` entry. -/
theorem detect_burns_twos_skipped_counterexample :
    BaseGame.detect_burns Fixtures.twosPile = [] ∧
    FullV2.detect_burns Fixtures.twosPileF = [] := by
  constructor <;> decide

/-- Frame: `setPlayer` changes no `GameState` field except the player. -/
theorem setPlayer_frame (st : BaseGame.GameState) (i : Bool) (p : BaseGame.Player) :
    (BaseGame.setPlayer st i p).common_pile = st.common_pile ∧
    (BaseGame.setPlayer st i p).means_active = st.means_active ∧
    (BaseGame.setPlayer st i p).means_limit = st.means_limit ∧
    (BaseGame.setPlayer st i p).first_burn = st.first_burn ∧
    (BaseGame.setPlayer st i p).status_rank = st.status_rank ∧
    (BaseGame.setPlayer st i p).current_idx = st.current_idx := by
  cases i <;> exact ⟨rfl, rfl, rfl, rfl, rfl, rfl⟩

/-- Frame: a status transfer touches only the players' holder flags. -/
theorem transfer_frame (st : BaseGame.GameState) (att dfd : Bool) :
    (BaseGame.transfer_status_due_to_means st att dfd).common_pile = st.common_pile ∧
    (BaseGame.transfer_status_due_to_means st att dfd).means_active = st.means_active ∧
    (BaseGame.transfer_status_due_to_means st att dfd).means_limit = st.means_limit ∧
    (BaseGame.transfer_status_due_to_means st att dfd).first_burn = st.first_burn ∧
    (BaseGame.transfer_status_due_to_means st att dfd).status_rank = st.status_rank ∧
    (BaseGame.transfer_status_due_to_means st att dfd).current_idx = st.current_idx := by
  unfold BaseGame.transfer_status_due_to_means
  split
  · cases att <;> cases dfd <;> exact ⟨rfl, rfl, rfl, rfl, rfl, rfl⟩
  · exact ⟨rfl, rfl, rfl, rfl, rfl, rfl⟩

/-- Frame: the means step leaves pile, status and turn untouched. -/
theorem means_step_frame (st : BaseGame.GameState) (att : Bool)
    (played : List BaseGame.Card) (vp : Bool) :
    (BaseGame.means_step st att played vp).common_pile = st.common_pile ∧
    (BaseGame.means_step st att played vp).first_burn = st.first_burn ∧
    (BaseGame.means_step st att played vp).status_rank = st.status_rank ∧
    (BaseGame.means_step st att played vp).current_idx = st.current_idx := by
  unfold BaseGame.means_step
  split
  · have h := transfer_frame st att (!st.current_idx)
    exact ⟨h.1, h.2.2.2.1, h.2.2.2.2.1, h.2.2.2.2.2⟩
  · exact ⟨rfl, rfl, rfl, rfl⟩

/-- One burn iteration always leaves the means constraint reset. -/
theorem applyBurn_means (st : BaseGame.GameState) (i : Bool) (r : Rank) :
    (BaseGame.applyBurn st i r).means_active = false ∧
    (BaseGame.applyBurn st i r).means_limit = none :=
  ⟨rfl, rfl⟩

/-- A burn iteration after the first burn never touches the status rank. -/
theorem applyBurn_status (st : BaseGame.GameState) (i : Bool) (r : Rank)
    (h : st.first_burn = true) :
    (BaseGame.applyBurn st i r).first_burn = true ∧
    (BaseGame.applyBurn st i r).status_rank = st.status_rank := by
  unfold BaseGame.applyBurn BaseGame.set_status_on_first_burn
  rw [if_pos h]
  exact ⟨h, rfl⟩

/-- Iterated burns preserve an already-reset means constraint. -/
theorem applyBurnN_means_preserved (i : Bool) (r : Rank) :
    ∀ (n : Nat) (st : BaseGame.GameState),
      st.means_active = false → st.means_limit = none →
      (BaseGame.applyBurnN st i r n).means_active = false ∧
      (BaseGame.applyBurnN st i r n).means_limit = none := by
  intro n
  induction n with
  | zero => intro st h1 h2; exact ⟨h1, h2⟩
  | succ m ih =>
    intro st _ _
    exact ih (BaseGame.applyBurn st i r) rfl rfl

/-- At least one burn iteration resets the means constraint. -/
theorem applyBurnN_means_off (i : Bool) (r : Rank) (n : Nat) (st : BaseGame.GameState)
    (h : 1 ≤ n) :
    (BaseGame.applyBurnN st i r n).means_active = false ∧
    (BaseGame.applyBurnN st i r n).means_limit = none := by
  cases n with
  | zero => exact absurd h (by simp)
  | succ m => exact applyBurnN_means_preserved i r m (BaseGame.applyBurn st i r) rfl rfl

/-- Iterated burns preserve status once the first burn has happened. -/
theorem applyBurnN_status (i : Bool) (r : Rank) :
    ∀ (n : Nat) (st : BaseGame.GameState), st.first_burn = true →
      (BaseGame.applyBurnN st i r n).first_burn = true ∧
      (BaseGame.applyBurnN st i r n).status_rank = st.status_rank := by
  intro n
  induction n with
  | zero => intro st h; exact ⟨h, rfl⟩
  | succ m ih =>
    intro st h
    have hb := applyBurn_status st i r h
    have := ih (BaseGame.applyBurn st i r) hb.1
    exact ⟨this.1, this.2.trans hb.2⟩

/-- The burns fold preserves a reset means constraint. -/
theorem burnsFold_means_preserved (i : Bool) :
    ∀ (bs : List (Rank × Nat)) (st : BaseGame.GameState),
      st.means_active = false → st.means_limit = none →
      (BaseGame.burnsFold st i bs).means_active = false ∧
      (BaseGame.burnsFold st i bs).means_limit = none := by
  intro bs
  induction bs with
  | nil => intro st h1 h2; exact ⟨h1, h2⟩
  | cons e rest ih =>
    intro st h1 h2
    rcases e with ⟨r, n⟩
    have h := applyBurnN_means_preserved i r n st h1 h2
    exact ih _ h.1 h.2

/-- A non-empty burns dict (all counts positive) resets the means
constraint. -/
theorem burnsFold_means_off (i : Bool) :
    ∀ (bs : List (Rank × Nat)) (st : BaseGame.GameState),
      bs ≠ [] → (∀ e ∈ bs, 1 ≤ e.2) →
      (BaseGame.burnsFold st i bs).means_active = false ∧
      (BaseGame.burnsFold st i bs).means_limit = none := by
  intro bs
  induction bs with
  | nil => intro st h; exact absurd rfl h
  | cons e rest _ =>
    intro st _ hpos
    rcases e with ⟨r, n⟩
    have hn : 1 ≤ n := hpos (r, n) (List.mem_cons_self _ _)
    have h := applyBurnN_means_off i r n st hn
    exact burnsFold_means_preserved i rest _ h.1 h.2

/-- The burns fold preserves status once the first burn has happened. -/
theorem burnsFold_status (i : Bool) :
    ∀ (bs : List (Rank × Nat)) (st : BaseGame.GameState), st.first_burn = true →
      (BaseGame.burnsFold st i bs).first_burn = true ∧
      (BaseGame.burnsFold st i bs).status_rank = st.status_rank := by
  intro bs
  induction bs with
  | nil => intro st h; exact ⟨h, rfl⟩
  | cons e rest ih =>
    intro st h
    rcases e with ⟨r, n⟩
    have hb := applyBurnN_status i r n st h
    have := ih _ hb.1
    exact ⟨this.1, this.2.trans hb.2⟩

/-- Every entry of the whole-pile burns dict has a positive count. -/
theorem BaseGame_detect_burns_pos (pile : List BaseGame.Card) :
    ∀ e ∈ BaseGame.detect_burns pile, 1 ≤ e.2 := by
  intro e he
  unfold BaseGame.detect_burns at he
  rcases List.mem_filterMap.mp he with ⟨a, _, hfa⟩
  by_cases h4 : 4 ≤ a.2
  · rw [if_pos h4] at hfa
    cases hfa
    exact (Nat.one_le_div_iff (by norm_num)).mpr h4
  · rw [if_neg h4] at hfa
    cases hfa

/-- Burn resolution preserves a reset means constraint. -/
theorem resolve_means_preserved (st : BaseGame.GameState) (i : Bool)
    (h1 : st.means_active = false) (h2 : st.means_limit = none) :
    (BaseGame.resolve_burns_if_any st i).means_active = false ∧
    (BaseGame.resolve_burns_if_any st i).means_limit = none := by
  unfold BaseGame.resolve_burns_if_any
  split
  · exact ⟨h1, h2⟩
  · exact burnsFold_means_preserved i _ st h1 h2

/-- Burn resolution after a detected burn resets the means constraint. -/
theorem resolve_means_off (st : BaseGame.GameState) (i : Bool)
    (h : BaseGame.detect_burns st.common_pile ≠ []) :
    (BaseGame.resolve_burns_if_any st i).means_active = false ∧
    (BaseGame.resolve_burns_if_any st i).means_limit = none := by
  unfold BaseGame.resolve_burns_if_any
  split
  · rename_i hnil
    exact absurd hnil h
  · exact burnsFold_means_off i _ st h (BaseGame_detect_burns_pos st.common_pile)

/-- Burn resolution preserves status once the first burn has happened. -/
theorem resolve_status (st : BaseGame.GameState) (i : Bool)
    (h : st.first_burn = true) :
    (BaseGame.resolve_burns_if_any st i).first_burn = true ∧
    (BaseGame.resolve_burns_if_any st i).status_rank = st.status_rank := by
  unfold BaseGame.resolve_burns_if_any
  split
  · exact ⟨h, rfl⟩
  · exact burnsFold_status i _ st h

/-- A forced pickup always leaves the means constraint reset. -/
theorem force_pickup_means (st : BaseGame.GameState) (dfd : Bool) :
    (BaseGame.force_pickup st dfd).means_active = false ∧
    (BaseGame.force_pickup st dfd).means_limit = none := by
  unfold BaseGame.force_pickup
  split <;> exact ⟨rfl, rfl⟩

/-- A forced pickup never touches the status fields. -/
theorem force_pickup_status (st : BaseGame.GameState) (dfd : Bool) :
    (BaseGame.force_pickup st dfd).first_burn = st.first_burn ∧
    (BaseGame.force_pickup st dfd).status_rank = st.status_rank := by
  unfold BaseGame.force_pickup
  split
  · exact ⟨rfl, rfl⟩
  · have h := setPlayer_frame st dfd ((BaseGame.getPlayer st dfd).take_pile_into_hand st.common_pile)
    exact ⟨h.2.2.2.1, h.2.2.2.2.1⟩

/-- The joker-offense step preserves a reset means constraint. -/
theorem jk_step_means_preserved (st : BaseGame.GameState)
    (played : List BaseGame.Card) (choice : BaseGame.BlockChoice)
    (h1 : st.means_active = false) (h2 : st.means_limit = none) :
    (BaseGame.jk_step st played choice).means_active = false ∧
    (BaseGame.jk_step st played choice).means_limit = none := by
  rcases hlast : played.getLast? with _ | c
  · simp only [BaseGame.jk_step, hlast]
    exact ⟨h1, h2⟩
  · by_cases hj : c.is_joker = true
    · by_cases hb : (BaseGame.getPlayer st (!st.current_idx)).has_block_piece = true
      · rcases choice with _ | s | _
        · simp only [BaseGame.jk_step, hlast]
          rw [if_pos hj, if_pos hb]
          refine ⟨?_, ?_⟩
          · rw [(setPlayer_frame st (!st.current_idx) _).2.1]; exact h1
          · rw [(setPlayer_frame st (!st.current_idx) _).2.2.1]; exact h2
        · simp only [BaseGame.jk_step, hlast]
          rw [if_pos hj, if_pos hb]
          by_cases hm : (⟨some Rank.FOUR, some s, BaseGame.CardType.NORMAL⟩ : BaseGame.Card) ∈
              (BaseGame.getPlayer st (!st.current_idx)).hand
          · rw [if_pos hm]
            refine ⟨?_, ?_⟩
            · rw [(setPlayer_frame st (!st.current_idx) _).2.1]; exact h1
            · rw [(setPlayer_frame st (!st.current_idx) _).2.2.1]; exact h2
          · rw [if_neg hm]
            exact force_pickup_means st _
        · simp only [BaseGame.jk_step, hlast]
          rw [if_pos hj, if_pos hb]
          exact force_pickup_means st _
      · simp only [BaseGame.jk_step, hlast]
        rw [if_pos hj, if_neg hb]
        exact force_pickup_means st _
    · simp only [BaseGame.jk_step, hlast]
      rw [if_neg hj]
      exact ⟨h1, h2⟩

/-- The joker-offense step never touches the status fields. -/
theorem jk_step_status (st : BaseGame.GameState)
    (played : List BaseGame.Card) (choice : BaseGame.BlockChoice) :
    (BaseGame.jk_step st played choice).first_burn = st.first_burn ∧
    (BaseGame.jk_step st played choice).status_rank = st.status_rank := by
  rcases hlast : played.getLast? with _ | c
  · simp [BaseGame.jk_step, hlast]
  · by_cases hj : c.is_joker = true
    · by_cases hb : (BaseGame.getPlayer st (!st.current_idx)).has_block_piece = true
      · rcases choice with _ | s | _
        · simp only [BaseGame.jk_step, hlast]
          rw [if_pos hj, if_pos hb]
          exact ⟨(setPlayer_frame st (!st.current_idx) _).2.2.2.1,
                 (setPlayer_frame st (!st.current_idx) _).2.2.2.2.1⟩
        · simp only [BaseGame.jk_step, hlast]
          rw [if_pos hj, if_pos hb]
          by_cases hm : (⟨some Rank.FOUR, some s, BaseGame.CardType.NORMAL⟩ : BaseGame.Card) ∈
              (BaseGame.getPlayer st (!st.current_idx)).hand
          · rw [if_pos hm]
            exact ⟨(setPlayer_frame st (!st.current_idx) _).2.2.2.1,
                   (setPlayer_frame st (!st.current_idx) _).2.2.2.2.1⟩
          · rw [if_neg hm]
            exact force_pickup_status st _
        · simp only [BaseGame.jk_step, hlast]
          rw [if_pos hj, if_pos hb]
          exact force_pickup_status st _
      · simp only [BaseGame.jk_step, hlast]
        rw [if_pos hj, if_neg hb]
        exact force_pickup_status st _
    · simp only [BaseGame.jk_step, hlast]
      rw [if_neg hj]
      exact ⟨rfl, rfl⟩

/-- The pile-append step extends the pile and touches nothing else. -/
theorem add_step_frame (st : BaseGame.GameState) (played : List BaseGame.Card) :
    (BaseGame.add_step st played).common_pile = st.common_pile ++ played ∧
    (BaseGame.add_step st played).means_active = st.means_active ∧
    (BaseGame.add_step st played).means_limit = st.means_limit ∧
    (BaseGame.add_step st played).first_burn = st.first_burn ∧
    (BaseGame.add_step st played).status_rank = st.status_rank :=
  ⟨rfl, rfl, rfl, rfl, rfl⟩

/-- The body of a validated play reports it as legal. -/
theorem playBody_legal (st : BaseGame.GameState) (i : Bool)
    (cards : List BaseGame.Card) (vp : Bool) (ch : BaseGame.BlockChoice) :
    (BaseGame.playBody st i cards vp ch).legal = true ∧
    (BaseGame.playBody st i cards vp ch).st = BaseGame.play_state st i cards vp ch :=
  ⟨rfl, rfl⟩

/-- Every card collected by the removal loop came from the raw card list. -/
theorem remove_played_subset (c : BaseGame.Card) :
    ∀ (l : List BaseGame.Card) (p : BaseGame.Player),
      c ∈ (BaseGame.remove_played p l).2 → c ∈ l := by
  intro l
  induction l with
  | nil => intro p h; exact absurd h (List.not_mem_nil c)
  | cons rc rest ih =>
    intro p h
    unfold BaseGame.remove_played at h
    rcases hrm : p.remove_from_zones rc with _ | p2
    · rw [hrm] at h
      exact List.mem_cons_of_mem rc (ih p h)
    · rw [hrm] at h
      rcases List.mem_cons.mp h with rfl | h2
      · exact List.mem_cons_self c rest
      · exact List.mem_cons_of_mem rc (ih p2 h2)

/-- A play without a Five or Seven cannot satisfy the pair-means test. -/
theorem pair_with_means_false_of_no_means (played : List BaseGame.Card)
    (h : ∀ c ∈ played, BaseGame.is_means_card c = false) :
    BaseGame.pair_with_means played = false := by
  unfold BaseGame.pair_with_means
  rw [decide_eq_false_iff_not]
  rintro ⟨-, hfive, -⟩
  have hex : ∃ c ∈ played.filter BaseGame.Card.is_normal,
      c.rank = some Rank.FIVE ∨ c.rank = some Rank.SEVEN := by
    rcases hfive with h5 | h7
    · rcases List.mem_map.mp h5 with ⟨c, hc, hr⟩
      exact ⟨c, hc, Or.inl hr⟩
    · rcases List.mem_map.mp h7 with ⟨c, hc, hr⟩
      exact ⟨c, hc, Or.inr hr⟩
  rcases hex with ⟨c, hcf, hr⟩
  have hcm := List.mem_filter.mp hcf
  have : BaseGame.is_means_card c = true := by
    unfold BaseGame.is_means_card
    rw [hcm.2]
    simpa using hr
  rw [h c hcm.1] at this
  cases this

/-- A play containing no means card deactivates the means constraint. -/
theorem means_step_off (st : BaseGame.GameState) (att : Bool)
    (played : List BaseGame.Card) (vp : Bool)
    (h1 : played.any BaseGame.is_means_card = false)
    (h2 : BaseGame.pair_with_means played = false) :
    (BaseGame.means_step st att played vp).means_active = false ∧
    (BaseGame.means_step st att played vp).means_limit = none := by
  unfold BaseGame.means_step
  rw [if_neg (by simp [h1, h2])]
  exact ⟨rfl, rfl⟩

/-- A play reported legal went through the mutating body. -/
theorem play_legal_state (st : BaseGame.GameState) (i : Bool)
    (cards : List BaseGame.Card) (vp : Bool) (ch : BaseGame.BlockChoice) :
    (BaseGame.play st i cards vp ch).legal = true →
    (BaseGame.play st i cards vp ch).st = BaseGame.play_state st i cards vp ch := by
  unfold BaseGame.play
  split
  · intro h; cases h
  · split
    · intro h; cases h
    · split
      · intro h; cases h
      · intro _; rfl

/-- A whole play never touches the status fields once the first burn has
happened. -/
theorem play_status_preserved (st : BaseGame.GameState) (i : Bool)
    (cards : List BaseGame.Card) (vp : Bool) (ch : BaseGame.BlockChoice)
    (h : st.first_burn = true) :
    (BaseGame.play st i cards vp ch).st.first_burn = true ∧
    (BaseGame.play st i cards vp ch).st.status_rank = st.status_rank := by
  unfold BaseGame.play
  split
  · exact ⟨h, rfl⟩
  · split
    · exact ⟨h, rfl⟩
    · split
      · exact ⟨h, rfl⟩
      · show (BaseGame.play_state st i cards vp ch).first_burn = true ∧
          (BaseGame.play_state st i cards vp ch).status_rank = st.status_rank
        unfold BaseGame.play_state
        have hsp := setPlayer_frame st i (BaseGame.remove_played (BaseGame.getPlayer st i) cards).1
        have hadd := add_step_frame (BaseGame.setPlayer st i (BaseGame.remove_played (BaseGame.getPlayer st i) cards).1)
          (BaseGame.remove_played (BaseGame.getPlayer st i) cards).2
        have hms := means_step_frame (BaseGame.add_step (BaseGame.setPlayer st i (BaseGame.remove_played (BaseGame.getPlayer st i) cards).1)
          (BaseGame.remove_played (BaseGame.getPlayer st i) cards).2) i
          (BaseGame.remove_played (BaseGame.getPlayer st i) cards).2 vp
        set m3 := BaseGame.means_step (BaseGame.add_step (BaseGame.setPlayer st i (BaseGame.remove_played (BaseGame.getPlayer st i) cards).1)
            (BaseGame.remove_played (BaseGame.getPlayer st i) cards).2) i
            (BaseGame.remove_played (BaseGame.getPlayer st i) cards).2 vp with hm3
        have hfb : m3.first_burn = true := by
          rw [hm3, hms.2.1, hadd.2.2.2.1, hsp.2.2.2.1]; exact h
        have hsr : m3.status_rank = st.status_rank := by
          rw [hm3, hms.2.2.1, hadd.2.2.2.2, hsp.2.2.2.2.1]
        have hres := resolve_status m3 i hfb
        have hjk := jk_step_status (BaseGame.resolve_burns_if_any m3 i)
          (BaseGame.remove_played (BaseGame.getPlayer st i) cards).2 ch
        exact ⟨hjk.1.trans hres.1, (hjk.2.trans hres.2).trans hsr⟩

/-- C3: a play fails exactly on the three validation checks (possession,
joker-alone, means), and every failing play leaves the entire game state
unchanged — validation happens before any mutation. -/
theorem play_validation_all_or_nothing (st : BaseGame.GameState) (i : Bool)
    (cards : List BaseGame.Card) (vp : Bool) (ch : BaseGame.BlockChoice) :
    ((BaseGame.play st i cards vp ch).legal = false ↔
      (¬ ∀ rc ∈ cards, rc ∈ (BaseGame.getPlayer st i).hand ∨
          rc ∈ (BaseGame.getPlayer st i).face_up) ∨
      (cards.any BaseGame.Card.is_joker = true ∧ cards.length ≠ 1) ∨
      BaseGame.legal_under_means st cards vp = false) ∧
    ((BaseGame.play st i cards vp ch).legal = false →
      (BaseGame.play st i cards vp ch).st = st) := by
  unfold BaseGame.play
  split
  · rename_i h1
    exact ⟨by simp [h1], fun _ => rfl⟩
  · rename_i h1
    split
    · rename_i h2
      exact ⟨by simp [h2], fun _ => rfl⟩
    · rename_i h2
      split
      · rename_i h3
        refine ⟨?_, fun _ => rfl⟩
        have h3f : BaseGame.legal_under_means st cards vp = false := by
          simpa using h3
        simp [h3f]
      · rename_i h3
        have hb := playBody_legal st i cards vp ch
        have hl : BaseGame.legal_under_means st cards vp = true := of_not_not h3
        constructor
        · rw [hb.1]
          constructor
          · intro h; cases h
          · rintro (hd | hd | hd)
            · exact absurd (of_not_not h1) hd
            · exact absurd hd h2
            · rw [hl] at hd; cases hd
        · intro hcontra
          rw [hb.1] at hcontra
          cases hcontra

/-- C3 witness: playing a card the player does not own fails and leaves the
state unchanged. -/
theorem play_validation_all_or_nothing_witness :
    (BaseGame.play Fixtures.baseSt false [Fixtures.bn .A .SPADES] false .no).st =
      Fixtures.baseSt :=
  (play_validation_all_or_nothing Fixtures.baseSt false
    [Fixtures.bn .A .SPADES] false .no).2 (by decide)

/-- C4 (amended to the `CardBaseGame` variant): a play containing a joker
and at least one other card is rejected as illegal with no state mutation. -/
theorem play_rejects_joker_with_others (st : BaseGame.GameState) (i : Bool)
    (cards : List BaseGame.Card) (vp : Bool) (ch : BaseGame.BlockChoice)
    (hj : cards.any BaseGame.Card.is_joker = true) (hlen : cards.length ≠ 1) :
    (BaseGame.play st i cards vp ch).legal = false ∧
    (BaseGame.play st i cards vp ch).st = st := by
  unfold BaseGame.play
  split
  · exact ⟨rfl, rfl⟩
  · rw [if_pos ⟨hj, hlen⟩]
    exact ⟨rfl, rfl⟩

/-- C4 witness: a joker together with a Four is rejected and the state is
unchanged. -/
theorem play_rejects_joker_with_others_witness :
    (BaseGame.play Fixtures.baseStJ false [Fixtures.bjk, Fixtures.bn .FOUR .CLUBS]
      false .no).legal = false ∧
    (BaseGame.play Fixtures.baseStJ false [Fixtures.bjk, Fixtures.bn .FOUR .CLUBS]
      false .no).st = Fixtures.baseStJ :=
  play_rejects_joker_with_others Fixtures.baseStJ false
    [Fixtures.bjk, Fixtures.bn .FOUR .CLUBS] false .no (by decide) (by decide)

/-- C4 counterexample: the claim also cites `game_full_v_2.GameState.play`,
which never rejects jokers played together: playing two jokers at once is
accepted, mutates the pile and enqueues a strength-2 offense. -/
theorem joker_with_others_accepted_counterexample :
    (FullV2.play Fixtures.fullSt false [Fixtures.fjk1, Fixtures.fjk2] false
      Fixtures.dec0).st.common_pile = [Fixtures.fjk1, Fixtures.fjk2] ∧
    (FullV2.play Fixtures.fullSt false [Fixtures.fjk1, Fixtures.fjk2] false
      Fixtures.dec0).st.offenses = [⟨false, 2, false⟩] := by
  constructor <;> rfl

/-- Only a Three has effective rank Three. -/
theorem effective_rank_eq_three_iff (r : Rank) :
    effective_rank r = Rank.THREE ↔ r = Rank.THREE := by
  cases r <;> simp [effective_rank]

/-- The reachable means limits (Five, Seven) are effective-rank fixpoints. -/
theorem effective_rank_of_limit (l : Rank)
    (h : l = Rank.FIVE ∨ l = Rank.SEVEN) : effective_rank l = l := by
  rcases h with rfl | rfl <;> rfl

/-- C5: while a means constraint with limit `l` is active, a play not tagged
`viaPair` containing any normal non-Three card of effective rank ≥ `l` is
rejected with no mutation (so a play is accepted only if every such card is
strictly lower); a play tagged `viaPair` bypasses the means check
entirely. -/
theorem play_enforces_means (st : BaseGame.GameState) (i : Bool)
    (cards : List BaseGame.Card) (ch : BaseGame.BlockChoice) (l : Rank)
    (c : BaseGame.Card) (r : Rank)
    (hac : st.means_active = true) (hlim : st.means_limit = some l)
    (hl : l = Rank.FIVE ∨ l = Rank.SEVEN)
    (hc : c ∈ cards) (hn : c.is_normal = true) (hr : c.rank = some r)
    (h3 : r ≠ Rank.THREE) (hge : l.value ≤ (effective_rank r).value) :
    ((BaseGame.play st i cards false ch).legal = false ∧
     (BaseGame.play st i cards false ch).st = st) ∧
    BaseGame.legal_under_means st cards true = true := by
  have hlm : BaseGame.legal_under_means st cards false = false := by
    unfold BaseGame.legal_under_means
    rw [if_neg (by simp), if_neg (by simp [hac])]
    rw [← Bool.not_eq_true, List.all_eq_true]
    intro hall
    have hfc := hall c hc
    rw [if_pos hn] at hfc
    simp only [hr] at hfc
    rw [if_neg (by rw [effective_rank_eq_three_iff]; exact h3)] at hfc
    simp only [hlim] at hfc
    rw [effective_rank_of_limit l hl] at hfc
    rw [decide_eq_true_iff] at hfc
    exact absurd hfc (Nat.not_lt.mpr hge)
  refine ⟨?_, rfl⟩
  unfold BaseGame.play
  split
  · exact ⟨rfl, rfl⟩
  · split
    · exact ⟨rfl, rfl⟩
    · rw [if_pos (by simp [hlm])]
      exact ⟨rfl, rfl⟩

/-- C5 witness: under an active means limit of Five, a lone Seven is
rejected and the state is unchanged, while the viaPair flag bypasses the
check. -/
theorem play_enforces_means_witness :
    ((BaseGame.play Fixtures.baseStMeans false [Fixtures.bn .SEVEN .SPADES]
        false .no).legal = false ∧
     (BaseGame.play Fixtures.baseStMeans false [Fixtures.bn .SEVEN .SPADES]
        false .no).st = Fixtures.baseStMeans) ∧
    BaseGame.legal_under_means Fixtures.baseStMeans
      [Fixtures.bn .SEVEN .SPADES] true = true :=
  play_enforces_means Fixtures.baseStMeans false [Fixtures.bn .SEVEN .SPADES]
    .no Rank.FIVE (Fixtures.bn .SEVEN .SPADES) Rank.SEVEN
    (by decide) (by decide) (Or.inl rfl) (by decide) (by decide) (by decide)
    (by decide) (by decide)

/-- C6: a successfully applied play with no Five or Seven (hence also not a
qualifying pair combo) leaves the means constraint deactivated; and any
successfully applied play whose appended cards complete a burn leaves the
means constraint deactivated regardless of its contents. -/
theorem play_resets_means (st : BaseGame.GameState) (i : Bool)
    (cards : List BaseGame.Card) (vp : Bool) (ch : BaseGame.BlockChoice)
    (hno : ∀ c ∈ cards, BaseGame.is_means_card c = false) :
    ((BaseGame.play st i cards vp ch).legal = true →
      (BaseGame.play st i cards vp ch).st.means_active = false ∧
      (BaseGame.play st i cards vp ch).st.means_limit = none) ∧
    (∀ (cards2 : List BaseGame.Card) (vp2 : Bool) (ch2 : BaseGame.BlockChoice),
      (BaseGame.play st i cards2 vp2 ch2).legal = true →
      BaseGame.detect_burns (st.common_pile ++
        (BaseGame.remove_played (BaseGame.getPlayer st i) cards2).2) ≠ [] →
      (BaseGame.play st i cards2 vp2 ch2).st.means_active = false ∧
      (BaseGame.play st i cards2 vp2 ch2).st.means_limit = none) := by
  constructor
  · intro hlegal
    rw [play_legal_state st i cards vp ch hlegal]
    unfold BaseGame.play_state
    have hplayed : ∀ c ∈ (BaseGame.remove_played (BaseGame.getPlayer st i) cards).2,
        BaseGame.is_means_card c = false :=
      fun c hcm => hno c (remove_played_subset c cards (BaseGame.getPlayer st i) hcm)
    have hany : (BaseGame.remove_played (BaseGame.getPlayer st i) cards).2.any
        BaseGame.is_means_card = false := by
      rw [← Bool.not_eq_true, List.any_eq_true]
      rintro ⟨c, hcm, hct⟩
      rw [hplayed c hcm] at hct
      cases hct
    have hpm := pair_with_means_false_of_no_means _ hplayed
    have hms := means_step_off (BaseGame.add_step
      (BaseGame.setPlayer st i (BaseGame.remove_played (BaseGame.getPlayer st i) cards).1)
      (BaseGame.remove_played (BaseGame.getPlayer st i) cards).2) i
      (BaseGame.remove_played (BaseGame.getPlayer st i) cards).2 vp hany hpm
    have hres := resolve_means_preserved _ i hms.1 hms.2
    exact jk_step_means_preserved _ _ ch hres.1 hres.2
  · intro cards2 vp2 ch2 hlegal hburn
    rw [play_legal_state st i cards2 vp2 ch2 hlegal]
    unfold BaseGame.play_state
    set m3 := BaseGame.means_step (BaseGame.add_step
      (BaseGame.setPlayer st i (BaseGame.remove_played (BaseGame.getPlayer st i) cards2).1)
      (BaseGame.remove_played (BaseGame.getPlayer st i) cards2).2) i
      (BaseGame.remove_played (BaseGame.getPlayer st i) cards2).2 vp2 with hm3
    have hpile : m3.common_pile = st.common_pile ++
        (BaseGame.remove_played (BaseGame.getPlayer st i) cards2).2 := by
      rw [hm3, (means_step_frame _ _ _ _).1, (add_step_frame _ _).1,
          (setPlayer_frame _ _ _).1]
    have hres := resolve_means_off m3 i (by rw [hpile]; exact hburn)
    exact jk_step_means_preserved _ _ ch2 hres.1 hres.2

/-- C6 witness: a legal Four under an active means limit of Five clears the
means constraint, and a legal Four completing a burn of Fours clears it as
well. -/
theorem play_resets_means_witness :
    ((BaseGame.play Fixtures.baseStMeans false [Fixtures.bn .FOUR .CLUBS]
        false .no).st.means_active = false) ∧
    ((BaseGame.play Fixtures.baseStBurn false [Fixtures.bn .FOUR .SPADES]
        false .no).st.means_active = false) := by
  constructor
  · exact ((play_resets_means Fixtures.baseStMeans false [Fixtures.bn .FOUR .CLUBS]
      false .no (by decide)).1 (by decide)).1
  · exact ((play_resets_means Fixtures.baseStBurn false [Fixtures.bn .FOUR .SPADES]
      false .no (by decide)).2 [Fixtures.bn .FOUR .SPADES] false .no
      (by decide) (by decide)).1

/-- C7: the status rank is assigned exactly once, on the game's very first
burn, guarded by the one-shot `first_burn` flag: the setter is a no-op once
the flag is up, a whole play never changes the status rank afterwards, and
status transfers (both variants) move only the holder flag and token, never
the status rank. -/
theorem status_rank_one_shot (st : BaseGame.GameState) (i j : Bool) (r : Rank)
    (cards : List BaseGame.Card) (vp : Bool) (ch : BaseGame.BlockChoice)
    (st2 : FullV2.GameState) (r2 : Rank) :
    (st.first_burn = false →
      (BaseGame.set_status_on_first_burn st i r).first_burn = true ∧
      (BaseGame.set_status_on_first_burn st i r).status_rank = some r) ∧
    (st.first_burn = true → BaseGame.set_status_on_first_burn st i r = st) ∧
    (st.first_burn = true →
      (BaseGame.play st i cards vp ch).st.first_burn = true ∧
      (BaseGame.play st i cards vp ch).st.status_rank = st.status_rank) ∧
    ((BaseGame.transfer_status_due_to_means st i j).status_rank = st.status_rank ∧
     (BaseGame.transfer_status_due_to_means st i j).first_burn = st.first_burn) ∧
    (st2.first_burn = true → FullV2.set_status st2 j r2 = st2) ∧
    ((FullV2.transfer_status st2 i j).status_rank = st2.status_rank ∧
     (FullV2.transfer_status st2 i j).first_burn = st2.first_burn) := by
  refine ⟨?_, ?_, ?_, ?_, ?_, ?_⟩
  · intro h
    unfold BaseGame.set_status_on_first_burn
    rw [if_neg (by simp [h])]
    have hsp := setPlayer_frame
      { st with first_burn := true, status_rank := some r } i
      { BaseGame.getPlayer { st with first_burn := true, status_rank := some r } i with
        has_status := true }
    exact ⟨hsp.2.2.2.1, hsp.2.2.2.2.1⟩
  · intro h
    unfold BaseGame.set_status_on_first_burn
    rw [if_pos h]
  · exact play_status_preserved st i cards vp ch
  · have ht := transfer_frame st i j
    exact ⟨ht.2.2.2.2.1, ht.2.2.2.1⟩
  · intro h
    unfold FullV2.set_status
    rw [if_pos h]
  · unfold FullV2.transfer_status
    split
    · cases i <;> cases j <;> exact ⟨rfl, rfl⟩
    · exact ⟨rfl, rfl⟩

/-- C7 witness: with the first burn already recorded at rank Eight, the
setter is a no-op, a full play preserves the status rank, and transfers
leave it untouched, in both variants. -/
theorem status_rank_one_shot_witness :
    BaseGame.set_status_on_first_burn Fixtures.baseSt7 false Rank.K =
      Fixtures.baseSt7 ∧
    (BaseGame.play Fixtures.baseSt7 false [Fixtures.bn .FOUR .CLUBS]
      false .no).st.status_rank = some Rank.EIGHT ∧
    FullV2.set_status Fixtures.fullSt7 false Rank.K = Fixtures.fullSt7 := by
  have h := status_rank_one_shot Fixtures.baseSt7 false false Rank.K
    [Fixtures.bn .FOUR .CLUBS] false .no Fixtures.fullSt7 Rank.K
  exact ⟨h.2.1 rfl, ((h.2.2.1 rfl).2).trans rfl, h.2.2.2.2.1 rfl⟩

/-- Dict lookup after dict assignment of the same key. -/
theorem lookupLedger_actionsInsert (m : List (Nat × Actions)) (k : Nat) (v : Actions) :
    lookupLedger k (actionsInsert m k v) = some v := by
  induction m with
  | nil => simp [actionsInsert, lookupLedger]
  | cons e t ih =>
    by_cases h : e.1 = k
    · simp [actionsInsert, h, lookupLedger]
    · simp [actionsInsert, h, lookupLedger, ih]

/-- Inserting a fully-enabled entry preserves a fully-enabled ledger. -/
theorem actionsInsert_all_tt (k : Nat) :
    ∀ (m : List (Nat × Actions)),
      (∀ e ∈ m, e.2 = Actions.mk true true) →
      ∀ e ∈ actionsInsert m k ⟨true, true⟩, e.2 = Actions.mk true true := by
  intro m
  induction m with
  | nil =>
    intro _ e he
    rcases List.mem_cons.mp he with rfl | h2
    · rfl
    · exact absurd h2 (List.not_mem_nil e)
  | cons a t ih =>
    intro hall e he
    unfold actionsInsert at he
    by_cases h : a.1 = k
    · rw [if_pos h] at he
      rcases List.mem_cons.mp he with rfl | h2
      · rfl
      · exact hall e (List.mem_cons_of_mem a h2)
    · rw [if_neg h] at he
      rcases List.mem_cons.mp he with he2 | h2
      · rw [he2]
        exact hall a (List.mem_cons_self a t)
      · exact ih (fun x hx => hall x (List.mem_cons_of_mem a hx)) e h2

/-- A fully-enabled ledger that contains a key yields the enabled entry. -/
theorem lookupLedger_mem_tt (k : Nat) :
    ∀ (m : List (Nat × Actions)),
      (∀ e ∈ m, e.2 = Actions.mk true true) →
      (∃ e ∈ m, e.1 = k) →
      lookupLedger k m = some ⟨true, true⟩ := by
  intro m
  induction m with
  | nil =>
    rintro _ ⟨e, he, _⟩
    exact absurd he (List.not_mem_nil e)
  | cons a t ih =>
    rintro hall ⟨e, he, hek⟩
    by_cases h : a.1 = k
    · unfold lookupLedger
      rw [if_pos h, hall a (List.mem_cons_self a t)]
    · unfold lookupLedger
      rw [if_neg h]
      rcases List.mem_cons.mp he with rfl | h2
      · exact absurd hek h
      · exact ih (fun x hx => hall x (List.mem_cons_of_mem a hx)) ⟨e, h2, hek⟩

/-- Dict assignment makes its key present. -/
theorem actionsInsert_mem_self (k : Nat) (v : Actions) :
    ∀ (m : List (Nat × Actions)), ∃ e ∈ actionsInsert m k v, e.1 = k := by
  intro m
  induction m with
  | nil => exact ⟨(k, v), List.mem_cons_self _ _, rfl⟩
  | cons a t ih =>
    by_cases h : a.1 = k
    · exact ⟨(k, v), by rw [actionsInsert, if_pos h]; exact List.mem_cons_self _ _, rfl⟩
    · rcases ih with ⟨e, he, hek⟩
      exact ⟨e, by rw [actionsInsert, if_neg h]; exact List.mem_cons_of_mem a he, hek⟩

/-- Dict assignment keeps every already-present key present. -/
theorem actionsInsert_mem_mono (k2 k : Nat) (v : Actions) :
    ∀ (m : List (Nat × Actions)),
      (∃ e ∈ m, e.1 = k2) → ∃ e ∈ actionsInsert m k v, e.1 = k2 := by
  intro m
  induction m with
  | nil =>
    rintro ⟨e, he, _⟩
    exact absurd he (List.not_mem_nil e)
  | cons a t ih =>
    rintro ⟨e, he, hek⟩
    by_cases h : a.1 = k
    · rcases List.mem_cons.mp he with rfl | h2
      · exact ⟨(k, v), by rw [actionsInsert, if_pos h]; exact List.mem_cons_self _ _,
          by rw [← hek, h]⟩
      · exact ⟨e, by rw [actionsInsert, if_pos h]; exact List.mem_cons_of_mem _ h2, hek⟩
    · rcases List.mem_cons.mp he with rfl | h2
      · exact ⟨e, by rw [actionsInsert, if_neg h]; exact List.mem_cons_self _ _, hek⟩
      · rcases ih ⟨e, h2, hek⟩ with ⟨e2, he2, he2k⟩
        exact ⟨e2, by rw [actionsInsert, if_neg h]; exact List.mem_cons_of_mem _ he2, he2k⟩

/-- Rebuilding the ledger from slots whose cards are all no-longer-acquired
yields the fully-enabled entry for every slotted card identity. -/
theorem lookupLedger_reset_fold (k : Nat) :
    ∀ (slots : List Engine.EmergencySlot) (m : List (Nat × Actions)),
      (∀ e ∈ m, e.2 = Actions.mk true true) →
      (∀ s ∈ slots, ∀ c, s.card = some c → c.just_acquired = false) →
      ((∃ e ∈ m, e.1 = k) ∨ (∃ s ∈ slots, ∃ c, s.card = some c ∧ c.iid = k)) →
      lookupLedger k (slots.foldl Engine.reset_entry m) = some ⟨true, true⟩ := by
  intro slots
  induction slots with
  | nil =>
    intro m hall hflags hkey
    rcases hkey with hk | ⟨s, hs, _⟩
    · exact lookupLedger_mem_tt k m hall hk
    · exact absurd hs (List.not_mem_nil s)
  | cons s rest ih =>
    intro m hall hflags hkey
    rw [List.foldl_cons]
    rcases hc : s.card with _ | c
    · simp only [Engine.reset_entry, hc]
      refine ih m hall (fun x hx => hflags x (List.mem_cons_of_mem s hx)) ?_
      rcases hkey with hk | ⟨s2, hs2, c2, hs2c, hck⟩
      · exact Or.inl hk
      · rcases List.mem_cons.mp hs2 with rfl | h2
        · rw [hc] at hs2c; cases hs2c
        · exact Or.inr ⟨s2, h2, c2, hs2c, hck⟩
    · simp only [Engine.reset_entry, hc]
      have hja : c.just_acquired = false := hflags s (List.mem_cons_self s rest) c hc
      rw [hja]
      refine ih _ (actionsInsert_all_tt c.iid m hall)
        (fun x hx => hflags x (List.mem_cons_of_mem s hx)) ?_
      rcases hkey with hk | ⟨s2, hs2, c2, hs2c, hck⟩
      · exact Or.inl (actionsInsert_mem_mono k c.iid ⟨true, true⟩ m hk)
      · rcases List.mem_cons.mp hs2 with rfl | h2
        · rw [hc] at hs2c
          cases hs2c
          rw [← hck]
          exact Or.inl (actionsInsert_mem_self c.iid ⟨true, true⟩ m)
        · exact Or.inr ⟨s2, h2, c2, hs2c, hck⟩

/-- The modified index of a list stays in the list (as the image of some
element) when the index is in range. -/
theorem modifyIdx_exists {α : Type} (f : α → α) :
    ∀ (l : List α) (i : Nat), i < l.length →
      ∃ x ∈ modifyIdx l i f, ∃ y, x = f y := by
  intro l
  induction l with
  | nil =>
    intro i h
    exact absurd h (by simp)
  | cons a t ih =>
    intro i h
    cases i with
    | zero => exact ⟨f a, List.mem_cons_self _ _, a, rfl⟩
    | succ n =>
      rcases ih n (by simpa using h) with ⟨x, hx, y, hy⟩
      exact ⟨x, List.mem_cons_of_mem a hx, y, hy⟩

/-- `modifyIdx` preserves length. -/
theorem modifyIdx_length {α : Type} (f : α → α) :
    ∀ (l : List α) (j : Nat), (modifyIdx l j f).length = l.length := by
  intro l
  induction l with
  | nil => intro j; cases j <;> rfl
  | cons a t ih =>
    intro j
    cases j with
    | zero => rfl
    | succ n => simp [modifyIdx, ih n]

/-- Whatever the provenance branch taken, the filled slot holds the flagged
card. -/
theorem fill_slot_update_card (card : Engine.Card) (known just : Bool)
    (col : Option Engine.Color) (s : Engine.EmergencySlot) :
    (Engine.fill_slot_update card known just col s).card =
      some { card with just_acquired := just } := by
  unfold Engine.fill_slot_update
  rcases col with _ | c0
  · by_cases hred : card.type = Engine.CardType.EMERGENCY_RED
    · simp [Engine.EmergencySlot.set_card, hred]
    · by_cases hblue : card.type = Engine.CardType.EMERGENCY_BLUE
      · simp [Engine.EmergencySlot.set_card, hred, hblue]
      · simp [Engine.EmergencySlot.set_card, hred, hblue]
  · simp [Engine.EmergencySlot.set_card]

/-- C8: installing a card via `fill_slot` with `just_acquired = true` writes
the ledger entry `{peek: false, swap: false}` for that card's identity, and
after exactly one `start_new_burn_cycle` with no new acquisitions the entry
for the same card is `{peek: true, swap: true}`. -/
theorem fill_slot_gating (p : Engine.Player) (i : Nat) (card : Engine.Card)
    (known : Bool) (col : Option Engine.Color)
    (h : i < p.emergency_slots.length) :
    lookupLedger card.iid
      (Engine.fill_slot p i card known true col).emergency_actions =
      some ⟨false, false⟩ ∧
    lookupLedger card.iid
      (Engine.start_new_burn_cycle
        (Engine.fill_slot p i card known true col)).emergency_actions =
      some ⟨true, true⟩ := by
  constructor
  · exact lookupLedger_actionsInsert p.emergency_actions card.iid ⟨false, false⟩
  · unfold Engine.start_new_burn_cycle Engine.reset_emergency_actions
    refine lookupLedger_reset_fold card.iid _ [] (by intro e he; cases he) ?_ ?_
    · intro s hs c hc
      rcases List.mem_map.mp hs with ⟨s0, _, hs0⟩
      rcases h0 : s0.card with _ | c0
      · rw [← hs0] at hc
        unfold Engine.clear_acquired at hc
        simp only [h0] at hc
        cases hc
      · rw [← hs0] at hc
        unfold Engine.clear_acquired at hc
        simp only [h0] at hc
        cases hc
        rfl
    · refine Or.inr ?_
      rcases modifyIdx_exists (Engine.fill_slot_update card known true col)
        p.emergency_slots i h with ⟨x, hx, y, hy⟩
      have hxcard : x.card = some { card with just_acquired := true } := by
        rw [hy]
        exact fill_slot_update_card card known true col y
      refine ⟨Engine.clear_acquired x, List.mem_map_of_mem _ hx, ?_⟩
      refine ⟨{ card with just_acquired := false }, ?_, rfl⟩
      unfold Engine.clear_acquired
      simp only [hxcard]

/-- C8 witness: a concrete red emergency card installed into slot 0 is inert
immediately and fully actionable after one new burn cycle. -/
theorem fill_slot_gating_witness :
    lookupLedger Fixtures.eSlotCard.iid
      (Engine.fill_slot Fixtures.ePlayer 0 Fixtures.eSlotCard true true
        none).emergency_actions = some ⟨false, false⟩ ∧
    lookupLedger Fixtures.eSlotCard.iid
      (Engine.start_new_burn_cycle
        (Engine.fill_slot Fixtures.ePlayer 0 Fixtures.eSlotCard true true
          none)).emergency_actions = some ⟨true, true⟩ :=
  fill_slot_gating Fixtures.ePlayer 0 Fixtures.eSlotCard true none (by decide)

/-- C10: in the full variant, `pickup_common` extends the hand with the
picked-up cards AND resets the personal pile to empty, while leaving the
face-up, face-down and emergency zones untouched. -/
theorem pickup_common_resets_personal_pile (p : FullV2.Player)
    (cs : List FullV2.Card) :
    (FullV2.pickup_common p cs).hand = p.hand ++ cs ∧
    (FullV2.pickup_common p cs).personal_pile = [] ∧
    (FullV2.pickup_common p cs).face_up = p.face_up ∧
    (FullV2.pickup_common p cs).face_down = p.face_down ∧
    (FullV2.pickup_common p cs).emergency_red = p.emergency_red ∧
    (FullV2.pickup_common p cs).emergency_blue = p.emergency_blue ∧
    (FullV2.pickup_common p cs).status_token = p.status_token ∧
    (FullV2.pickup_common p cs).has_status_ability = p.has_status_ability :=
  ⟨rfl, rfl, rfl, rfl, rfl, rfl, rfl, rfl⟩
